import Mathlib

/-!
# Verification of the SEI NAL-unit publisher

A shallow embedding, over `List Nat` byte buffers, of the SEI
(Supplemental Enhancement Information) publisher of this repository:
the NAL codec (`length_to_uint8`, `create_header`,
`do_emulation_prevention`, `create_sei_nal_unit`), the frame injector
(`find_insert_position`, `insert_sei_unit`, keyframe scan,
`sei_publisher_process_frame`), the bounded ring-buffer message queue
(`sei_publisher_publish_json`, `sei_publisher_publish_text`) and the
statistics hook (`video_sei_hook_process_frame`).

Bytes are modelled as `Nat` (all byte values the code produces are
< 256; the C comparisons against the constants 0x00..0x03 and the
masking `& 0x1F` are modelled by `= 0`, ..., `% 32`).  C sizes are
`Nat`; the `uint32_t` statistics counters wrap modulo `2 ^ 32`.
Mutex acquisition and `malloc` are modelled as always succeeding
(the contention / out-of-memory fallback paths are not exercised by
the properties below), and C strings are modelled as NUL-free byte
lists.
-/

namespace SeiPublisher

/-- `SEI_MAX_PAYLOAD_SIZE` from the header. -/
def SEI_MAX_PAYLOAD_SIZE : Nat := 400

/-- `SEI_MAX_QUEUE_SIZE` from the header. -/
def SEI_MAX_QUEUE_SIZE : Nat := 15

/-- `SEI_DEFAULT_REPEAT_COUNT` from the header (C `int`, hence `Int`). -/
def SEI_DEFAULT_REPEAT_COUNT : Int := 3

/-- `NAL_UNIT_TYPE_SEI` (0x06). -/
def NAL_UNIT_TYPE_SEI : Nat := 6

/-- `SEI_TYPE_USER_DATA_UNREGISTERED` (0x05). -/
def SEI_TYPE_USER_DATA_UNREGISTERED : Nat := 5

/-- `SEI_PAYLOAD_TERMINATION` (0x80). -/
def SEI_PAYLOAD_TERMINATION : Nat := 128

/-- The fixed 16-byte identifier `SEND_SEI_UUID`
(3f8a2b1c-4d5e-6f70-8192-a3b4c5d6e7f8). -/
def SEND_SEI_UUID : List Nat :=
  [0x3F, 0x8A, 0x2B, 0x1C, 0x4D, 0x5E, 0x6F, 0x70,
   0x81, 0x92, 0xA3, 0xB4, 0xC5, 0xD6, 0xE7, 0xF8]

/-!
## Emulation prevention

`do_emulation_prevention` copies the first four bytes (the start code)
verbatim and then, for every further input byte, inserts an escape
byte 0x03 exactly when the two most recently written output bytes are
both 0x00 and the input byte is one of 0x00..0x03.  The loop is
modelled by `epLoop`, which carries the output buffer in reverse so
that "the two most recently written output bytes" are the first two
elements of the accumulator, mirroring `output[output_pos - 1]` and
`output[output_pos - 2]` of the C loop.
-/

/-- The emulation-prevention loop of `do_emulation_prevention`
(lines 101-111 of the source).  `outRev` is the output written so far,
most recent byte first; `y` below is `output[output_pos - 1]` and `z`
is `output[output_pos - 2]`.  The `output_pos >= 2` guard of the C
code corresponds to the accumulator having at least two elements. -/
def epLoop : List Nat → List Nat → List Nat
  | [], outRev => outRev.reverse
  | b :: rest, y :: z :: t =>
    if z = 0 ∧ y = 0 ∧ (b = 0 ∨ b = 1 ∨ b = 2 ∨ b = 3) then
      epLoop rest (b :: 3 :: y :: z :: t)
    else
      epLoop rest (b :: y :: z :: t)
  | b :: rest, [] => epLoop rest [b]
  | b :: rest, [y] => epLoop rest [b, y]

/-- `do_emulation_prevention`: the first `min 4 input.length` bytes are
copied verbatim; if the input is at most 4 bytes long that is all
(lines 90-98), otherwise the remaining bytes run through the escape
loop.  (For `input_size < 4` the C loop bound `input_size - 4`
underflows `size_t`; that case is unreachable through the public API
and is modelled by the truncated `Nat` subtraction, i.e. no loop.) -/
def do_emulation_prevention (input : List Nat) : List Nat :=
  if input.length ≤ 4 then input.take 4
  else epLoop (input.drop 4) (input.take 4).reverse

/-- The number of trailing zero bytes of the output (given in reverse),
capped at 2: the part of the C loop's state that decides whether an
escape byte is due. -/
def win : List Nat → Nat
  | 0 :: 0 :: _ => 2
  | 0 :: _ => 1
  | _ => 0

/-- State-machine form of the escape loop: `z` is the current
`win` of the output written so far.  `epLoop` is proved equal to it in
`epLoop_eq_epEmit`; all further reasoning uses this form. -/
def epEmit : List Nat → Nat → List Nat
  | [], _ => []
  | b :: rest, z =>
    if 2 ≤ z ∧ (b = 0 ∨ b = 1 ∨ b = 2 ∨ b = 3) then
      3 :: b :: epEmit rest (if b = 0 then 1 else 0)
    else
      b :: epEmit rest (if b = 0 then min 2 (z + 1) else 0)

/-- The inverse scan: remove every 0x03 byte that follows two zero
bytes.  `z` counts the pending zero bytes of the escaped stream,
capped at 2. -/
def epDecode : Nat → List Nat → List Nat
  | _, [] => []
  | z, b :: rest =>
    if 2 ≤ z ∧ b = 3 then epDecode 0 rest
    else b :: epDecode (if b = 0 then min 2 (z + 1) else 0) rest

/-- Scanning invariant: walking the list with `z` pending zero bytes
never meets a 0x01 byte in a position where two zero bytes directly
precede it — i.e. the list extends its left context to no 3-byte
start code. -/
def scanOk : Nat → List Nat → Prop
  | _, [] => True
  | z, b :: rest => ¬(2 ≤ z ∧ b = 1) ∧ scanOk (if b = 0 then min 2 (z + 1) else 0) rest

theorem win_cons (b : Nat) (l : List Nat) :
    win (b :: l) = if b = 0 then (if l.headD 1 = 0 then 2 else 1) else 0 := by
  cases l with
  | nil =>
    by_cases hb : b = 0 <;> simp [hb, win]
  | cons y t =>
    by_cases hb : b = 0 <;> by_cases hy : y = 0 <;> simp [hb, hy, win]

/-- The accumulator loop agrees with the state-machine form. -/
theorem epLoop_eq_epEmit (inp : List Nat) :
    ∀ outRev, epLoop inp outRev = outRev.reverse ++ epEmit inp (win outRev) := by
  induction inp with
  | nil => intro outRev; simp [epLoop, epEmit]
  | cons b rest ih =>
    intro outRev
    match outRev with
    | [] =>
      rw [show epLoop (b :: rest) [] = epLoop rest [b] from rfl, ih]
      simp only [List.reverse_cons, List.reverse_nil, List.nil_append]
      rw [epEmit]
      have h0 : win ([] : List Nat) = 0 := rfl
      rw [h0, if_neg (by omega), win_cons]
      by_cases hb : b = 0 <;> simp [hb]
    | [y] =>
      rw [show epLoop (b :: rest) [y] = epLoop rest [b, y] from rfl, ih]
      simp only [List.reverse_cons, List.reverse_nil, List.nil_append, List.append_assoc,
        List.cons_append, List.nil_append]
      rw [epEmit]
      have hwy : win [y] = if y = 0 then 1 else 0 := by
        by_cases hy : y = 0 <;> simp [hy, win]
      have : ¬ (2 ≤ win [y] ∧ (b = 0 ∨ b = 1 ∨ b = 2 ∨ b = 3)) := by
        rw [hwy]; by_cases hy : y = 0 <;> simp [hy]
      rw [if_neg this, win_cons, hwy]
      by_cases hb : b = 0 <;> by_cases hy : y = 0 <;> simp [hb, hy, win]
    | y :: z :: t =>
      rw [epLoop]
      have hwin : win (y :: z :: t) = 2 ↔ (z = 0 ∧ y = 0) := by
        by_cases hy : y = 0 <;> by_cases hz : z = 0 <;> simp [hy, hz, win]
      by_cases hcond : z = 0 ∧ y = 0 ∧ (b = 0 ∨ b = 1 ∨ b = 2 ∨ b = 3)
      · rw [if_pos hcond, ih]
        have h2 : 2 ≤ win (y :: z :: t) := le_of_eq (hwin.mpr ⟨hcond.1, hcond.2.1⟩).symm
        rw [epEmit, if_pos ⟨h2, hcond.2.2⟩]
        have : win (b :: 3 :: y :: z :: t) = if b = 0 then 1 else 0 := by
          by_cases hb : b = 0 <;> simp [hb, win]
        rw [this]
        simp
      · rw [if_neg hcond, ih]
        have hno : ¬ (2 ≤ win (y :: z :: t) ∧ (b = 0 ∨ b = 1 ∨ b = 2 ∨ b = 3)) := by
          rintro ⟨h2, hsm⟩
          have : win (y :: z :: t) = 2 := by
            have : win (y :: z :: t) ≤ 2 := by
              by_cases hy : y = 0 <;> by_cases hz : z = 0 <;> simp [hy, hz, win]
            omega
          exact hcond ⟨(hwin.mp this).1, (hwin.mp this).2, hsm⟩
        rw [epEmit, if_neg hno]
        have : win (b :: y :: z :: t) = if b = 0 then min 2 (win (y :: z :: t) + 1) else 0 := by
          by_cases hb : b = 0 <;> by_cases hy : y = 0 <;> by_cases hz : z = 0 <;>
            simp [hb, hy, hz, win]
        rw [this]
        simp

/-- Removing the escape bytes recovers the original bytes: the escape
loop is invertible from any starting state. -/
theorem epDecode_epEmit (inp : List Nat) :
    ∀ z, epDecode z (epEmit inp z) = inp := by
  induction inp with
  | nil => intro z; simp [epEmit, epDecode]
  | cons b rest ih =>
    intro z
    rw [epEmit]
    by_cases hcond : 2 ≤ z ∧ (b = 0 ∨ b = 1 ∨ b = 2 ∨ b = 3)
    · rw [if_pos hcond, epDecode, if_pos ⟨hcond.1, rfl⟩, epDecode]
      have hb3 : ¬ (2 ≤ 0 ∧ b = 3) := by omega
      rw [if_neg hb3]
      by_cases hb : b = 0 <;> simp [hb, ih]
    · rw [if_neg hcond, epDecode]
      have : ¬ (2 ≤ z ∧ b = 3) := by
        rintro ⟨h2, h3⟩; exact hcond ⟨h2, by omega⟩
      rw [if_neg this, ih]

/-- The escaped stream satisfies the scanning invariant: no byte 0x01
ever directly follows two zero bytes (counting the `z` zeros carried
in from the copied prefix). -/
theorem scanOk_epEmit (inp : List Nat) :
    ∀ z, scanOk z (epEmit inp z) := by
  induction inp with
  | nil => intro z; simp [epEmit, scanOk]
  | cons b rest ih =>
    intro z
    rw [epEmit]
    by_cases hcond : 2 ≤ z ∧ (b = 0 ∨ b = 1 ∨ b = 2 ∨ b = 3)
    · rw [if_pos hcond]
      rw [scanOk]
      refine ⟨by omega, ?_⟩
      rw [show ((if (3 : Nat) = 0 then min 2 (z + 1) else 0) = 0) from rfl, scanOk]
      refine ⟨by omega, ?_⟩
      have hst : (if b = 0 then min 2 (0 + 1) else 0) = (if b = 0 then 1 else 0) := by
        by_cases hb : b = 0 <;> simp [hb]
      rw [hst]
      exact ih _
    · rw [if_neg hcond, scanOk]
      constructor
      · rintro ⟨h2, h1⟩; exact hcond ⟨h2, by omega⟩
      · exact ih _

/-- The scanning invariant rules out the bytes `00 00 01` at the head
of the list. -/
theorem not_scanOk_001 (z : Nat) (t : List Nat) : ¬ scanOk z (0 :: 0 :: 1 :: t) := by
  intro h
  rw [scanOk] at h
  obtain ⟨-, h⟩ := h
  rw [scanOk] at h
  obtain ⟨-, h⟩ := h
  rw [scanOk] at h
  refine h.1 ⟨?_, rfl⟩
  simp only [reduceIte]
  omega

/-- A list satisfying the scanning invariant contains no 3-byte start
code `00 00 01` at any position. -/
theorem scanOk_no001 (l : List Nat) :
    ∀ z p, scanOk z l → ¬ ([0, 0, 1] <+: l.drop p) := by
  induction l with
  | nil =>
    intro z p h hpre
    have := hpre.length_le
    simp at this
  | cons b rest ih =>
    intro z p h hpre
    rw [scanOk] at h
    cases p with
    | zero =>
      obtain ⟨t, ht⟩ := hpre
      simp only [List.drop_zero, List.cons_append, List.nil_append] at ht
      injection ht with hb hrest
      subst hb
      rw [← hrest] at h
      exact not_scanOk_001 z t (by rw [scanOk]; exact h)
    | succ p =>
      exact ih _ p h.2 hpre

/-- The scanning invariant rules out a 0x01 byte at the head when two
zeros are pending. -/
theorem not_scanOk_1 (z : Nat) (hz : 2 ≤ z) (t : List Nat) : ¬ scanOk z (1 :: t) := by
  intro h
  rw [scanOk] at h
  exact h.1 ⟨hz, rfl⟩

/-- The scanning invariant rules out the bytes `00 01` at the head
when at least one zero is pending. -/
theorem not_scanOk_01 (z : Nat) (hz : 1 ≤ z) (t : List Nat) : ¬ scanOk z (0 :: 1 :: t) := by
  intro h
  rw [scanOk] at h
  obtain ⟨-, h⟩ := h
  simp only [reduceIte] at h
  exact not_scanOk_1 _ (by omega) t h

theorem epEmit_ne_nil (b : Nat) (rest : List Nat) (z : Nat) : epEmit (b :: rest) z ≠ [] := by
  rw [epEmit]
  split <;> simp

/-- The escape loop never changes the last byte of a nonempty input
(an escape byte is only ever inserted in front of a byte). -/
theorem epEmit_getLast? (inp : List Nat) :
    ∀ z, inp ≠ [] → (epEmit inp z).getLast? = inp.getLast? := by
  induction inp with
  | nil => intro z h; exact absurd rfl h
  | cons b rest ih =>
    intro z _
    rw [epEmit]
    cases rest with
    | nil => split <;> simp [epEmit, List.getLast?]
    | cons c r =>
      have hne : epEmit (c :: r) (if b = 0 then 1 else 0) ≠ [] := epEmit_ne_nil _ _ _
      have hne2 : epEmit (c :: r) (if b = 0 then min 2 (z + 1) else 0) ≠ [] := epEmit_ne_nil _ _ _
      split
      · rw [show (3 : Nat) :: b :: epEmit (c :: r) (if b = 0 then 1 else 0) =
            [3, b] ++ epEmit (c :: r) (if b = 0 then 1 else 0) from rfl,
          List.getLast?_append_of_ne_nil _ hne, ih _ (by simp)]
        simp [List.getLast?_cons_cons]
      · rw [show b :: epEmit (c :: r) (if b = 0 then min 2 (z + 1) else 0) =
            [b] ++ epEmit (c :: r) (if b = 0 then min 2 (z + 1) else 0) from rfl,
          List.getLast?_append_of_ne_nil _ hne2, ih _ (by simp)]
        simp [List.getLast?_cons_cons]

/-- Bytes ≥ 4 pass through the escape loop unchanged and leave the
zero-window empty. -/
theorem epEmit_append_ge4 (u : List Nat) :
    ∀ (t : List Nat) (z : Nat), u ≠ [] → (∀ b ∈ u, 4 ≤ b) →
      epEmit (u ++ t) z = u ++ epEmit t 0 := by
  induction u with
  | nil => intro t z h; exact absurd rfl h
  | cons b u' ih =>
    intro t z _ hb
    have hb4 : 4 ≤ b := hb b (by simp)
    rw [List.cons_append, epEmit, if_neg (by rintro ⟨-, h⟩; rcases h with h | h | h | h <;> omega),
      if_neg (by omega)]
    cases u' with
    | nil => simp
    | cons c u'' =>
      rw [ih t 0 (by simp) (fun x hx => hb x (by simp [hx]))]
      simp

/-- The escape loop maps a prefix of the input to a prefix of the
output: the output for `xs ++ t` is some prefix followed by the output
for `t` from some state. -/
theorem epEmit_append_split (xs : List Nat) :
    ∀ (t : List Nat) (z : Nat), ∃ pre z', epEmit (xs ++ t) z = pre ++ epEmit t z' := by
  induction xs with
  | nil => intro t z; exact ⟨[], z, by simp⟩
  | cons b xs' ih =>
    intro t z
    rw [List.cons_append, epEmit]
    split
    · obtain ⟨pre, z', h⟩ := ih t (if b = 0 then 1 else 0)
      exact ⟨3 :: b :: pre, z', by rw [h]; simp⟩
    · obtain ⟨pre, z', h⟩ := ih t (if b = 0 then min 2 (z + 1) else 0)
      exact ⟨b :: pre, z', by rw [h]; simp⟩

/-- For inputs longer than four bytes, `do_emulation_prevention` is
the verbatim 4-byte prefix followed by the escape loop on the rest,
started from the zero-window of the prefix. -/
theorem dep_eq_emit (input : List Nat) (h : 5 ≤ input.length) :
    do_emulation_prevention input =
      input.take 4 ++ epEmit (input.drop 4) (win (input.take 4).reverse) := by
  rw [do_emulation_prevention, if_neg (by omega), epLoop_eq_epEmit]
  simp

/-- `do_emulation_prevention` copies the first four bytes verbatim. -/
theorem dep_take4 (input : List Nat) :
    (do_emulation_prevention input).take 4 = input.take 4 := by
  by_cases h : input.length ≤ 4
  · rw [do_emulation_prevention, if_pos h, List.take_take]
    simp
  · rw [dep_eq_emit input (by omega)]
    have h4 : (input.take 4).length = 4 := by
      rw [List.length_take]; omega
    rw [List.take_append_of_le_length (by omega), List.take_take]
    simp

/-- The central safety property of emulation prevention: the output
contains no 3-byte start code `00 00 01` starting at any offset ≥ 2
(offsets 0 and 1 lie inside the verbatim start code). -/
theorem dep_no001 (input : List Nat) (p : Nat) (hp : 2 ≤ p) :
    ¬ ([0, 0, 1] <+: (do_emulation_prevention input).drop p) := by
  by_cases hlen : input.length ≤ 4
  · rw [do_emulation_prevention, if_pos hlen]
    intro hpre
    have h1 := hpre.length_le
    simp only [List.length_drop, List.length_take, List.length_cons, List.length_nil] at h1
    omega
  · rcases input with _ | ⟨i0, _ | ⟨i1, _ | ⟨i2, _ | ⟨i3, r⟩⟩⟩⟩ <;> simp at hlen
    have hr : 0 < r.length := List.length_pos.mpr hlen
    rw [dep_eq_emit _ (by simp; omega)]
    rw [show (i0 :: i1 :: i2 :: i3 :: r).take 4 = [i0, i1, i2, i3] from rfl,
      show (i0 :: i1 :: i2 :: i3 :: r).drop 4 = r from rfl,
      show ([i0, i1, i2, i3] : List Nat).reverse = [i3, i2, i1, i0] by simp]
    have hscan := scanOk_epEmit r (win [i3, i2, i1, i0])
    rcases p with _ | _ | _ | _ | n
    · omega
    · omega
    · -- p = 2: the pattern would read `i2 i3 e0`
      intro hpre
      obtain ⟨t, ht⟩ := hpre
      rw [show (([i0, i1, i2, i3] : List Nat) ++ epEmit r (win [i3, i2, i1, i0])).drop 2 =
            i2 :: i3 :: epEmit r (win [i3, i2, i1, i0]) from rfl] at ht
      simp only [List.cons_append, List.nil_append] at ht
      injection ht with h2 ht; injection ht with h3 ht
      subst h2; subst h3
      rw [← ht] at hscan
      rw [show win ([(0 : Nat), 0, i1, i0]) = 2 from rfl] at hscan
      exact not_scanOk_1 2 (by omega) t hscan
    · -- p = 3: the pattern would read `i3 e0 e1`
      intro hpre
      obtain ⟨t, ht⟩ := hpre
      rw [show (([i0, i1, i2, i3] : List Nat) ++ epEmit r (win [i3, i2, i1, i0])).drop 3 =
            i3 :: epEmit r (win [i3, i2, i1, i0]) from rfl] at ht
      simp only [List.cons_append, List.nil_append] at ht
      injection ht with h3 ht
      subst h3
      have hwin : 1 ≤ win ([(0 : Nat), i2, i1, i0]) := by
        by_cases h2 : i2 = 0 <;> simp [h2, win]
      rw [← ht] at hscan
      exact not_scanOk_01 _ hwin t hscan
    · -- p = n + 4: the pattern lies inside the escaped region
      have heq : (([i0, i1, i2, i3] : List Nat) ++ epEmit r (win [i3, i2, i1, i0])).drop (n + 1 + 1 + 1 + 1) =
          (epEmit r (win [i3, i2, i1, i0])).drop n := by
        rw [show n + 1 + 1 + 1 + 1 = ([i0, i1, i2, i3] : List Nat).length + n by simp; omega,
          List.drop_append]
      rw [heq]
      exact scanOk_no001 _ _ n hscan

/-!
## NAL codec

`length_to_uint8`, `create_header` and `create_sei_nal_unit` from the
source, plus a decoder `decode_sei` that performs the inverse
bitstream scan (skip start code, undo emulation prevention, parse the
header, read identifier and payload).
-/

/-- `length_to_uint8` (lines 46-56): the SEI variable-length size
field, a chain of 0xFF bytes followed by the remainder. -/
def length_to_uint8 (length : Nat) : List Nat :=
  if 255 ≤ length then 255 :: length_to_uint8 (length - 255) else [length]
termination_by length
decreasing_by omega

/-- `create_header` (lines 61-82): 4-byte start code, NAL-unit-type
SEI, SEI-payload-type user-data-unregistered, size field for
`payload_length + 16`, then the 16 identifier bytes. -/
def create_header (uuid : List Nat) (payload_length : Nat) : List Nat :=
  [0, 0, 0, 1] ++ [NAL_UNIT_TYPE_SEI, SEI_TYPE_USER_DATA_UNREGISTERED] ++
    length_to_uint8 (payload_length + 16) ++ uuid

/-- `create_sei_nal_unit` (lines 119-140): header, payload and
termination byte assembled and then emulation-prevented. -/
def create_sei_nal_unit (uuid payload : List Nat) : List Nat :=
  do_emulation_prevention
    (create_header uuid payload.length ++ payload ++ [SEI_PAYLOAD_TERMINATION])

/-- Closed form of the size field: `n / 255` bytes 0xFF followed by
the remainder `n % 255 < 255`. -/
theorem length_to_uint8_eq (n : Nat) :
    length_to_uint8 n = List.replicate (n / 255) 255 ++ [n % 255] := by
  induction n using Nat.strong_induction_on with
  | _ n ih =>
    rw [length_to_uint8]
    by_cases h : 255 ≤ n
    · rw [if_pos h, ih (n - 255) (by omega)]
      rw [show n / 255 = (n - 255) / 255 + 1 by omega,
        show n % 255 = (n - 255) % 255 by omega]
      simp [List.replicate_succ]
    · rw [if_neg h, show n / 255 = 0 by omega, show n % 255 = n by omega]
      simp

theorem length_to_uint8_length_pos (n : Nat) : 0 < (length_to_uint8 n).length := by
  rw [length_to_uint8_eq]
  simp

/-- Inverse of the size field: consume 0xFF bytes, stop at the first
other byte. -/
def parse_size : List Nat → Option (Nat × List Nat)
  | [] => none
  | b :: rest =>
    if b = 255 then (parse_size rest).map (fun r => (r.1 + 255, r.2)) else some (b, rest)

theorem parse_size_length_to_uint8 (n : Nat) (t : List Nat) :
    parse_size (length_to_uint8 n ++ t) = some (n, t) := by
  induction n using Nat.strong_induction_on with
  | _ n ih =>
    rw [length_to_uint8]
    by_cases h : 255 ≤ n
    · rw [if_pos h, List.cons_append, parse_size, if_pos rfl, ih (n - 255) (by omega)]
      rw [show (some ((n - 255 : Nat), t)).map (fun r => (r.1 + 255, r.2)) =
        some (n - 255 + 255, t) from rfl]
      rw [show n - 255 + 255 = n by omega]
    · rw [if_neg h, List.cons_append, List.nil_append, parse_size, if_neg (by omega)]

/-- The inverse bitstream scan for a SEI NAL unit as produced by
`create_sei_nal_unit`: skip the 4-byte start code, remove the
emulation-prevention bytes, check the two header bytes, parse the
size field, and split off the 16 identifier bytes, the payload and
the termination byte.  Returns the identifier and the payload. -/
def decode_sei (data : List Nat) : Option (List Nat × List Nat) :=
  if data.take 4 = [0, 0, 0, 1] then
    if (epDecode 0 (data.drop 4)).take 2 = [6, 5] then
      match parse_size ((epDecode 0 (data.drop 4)).drop 2) with
      | some (n, body2) =>
        if 16 ≤ n ∧ body2.drop n = [SEI_PAYLOAD_TERMINATION] then
          some (body2.take 16, (body2.drop 16).take (n - 16))
        else none
      | none => none
    else none
  else none

/-- The assembled pre-escape buffer, split as start code plus body. -/
theorem create_raw_eq (uuid payload : List Nat) :
    create_header uuid payload.length ++ payload ++ [SEI_PAYLOAD_TERMINATION] =
      [0, 0, 0, 1] ++ (6 :: 5 :: (length_to_uint8 (payload.length + 16) ++
        (uuid ++ (payload ++ [SEI_PAYLOAD_TERMINATION])))) := by
  rw [create_header]
  simp [NAL_UNIT_TYPE_SEI, SEI_TYPE_USER_DATA_UNREGISTERED]

/-- `create_sei_nal_unit` in emitted form: the literal start code and
header bytes 06 05 followed by the escaped remainder. -/
theorem create_sei_eq_emit (uuid payload : List Nat) :
    create_sei_nal_unit uuid payload =
      0 :: 0 :: 0 :: 1 :: 6 :: 5 :: epEmit (length_to_uint8 (payload.length + 16) ++
        (uuid ++ (payload ++ [SEI_PAYLOAD_TERMINATION]))) 0 := by
  rw [create_sei_nal_unit, create_raw_eq]
  have hlen : 5 ≤ (([0, 0, 0, 1] : List Nat) ++ (6 :: 5 :: (length_to_uint8 (payload.length + 16) ++
      (uuid ++ (payload ++ [SEI_PAYLOAD_TERMINATION]))))).length := by
    simp
  rw [dep_eq_emit _ hlen]
  rw [List.take_append_of_le_length (by simp), List.drop_append_of_le_length (by simp)]
  rw [show List.take 4 ([0, 0, 0, 1] : List Nat) = [0, 0, 0, 1] from rfl,
    show List.drop 4 ([0, 0, 0, 1] : List Nat) = [] from rfl, List.nil_append,
    show ([0, 0, 0, 1] : List Nat).reverse = [1, 0, 0, 0] from rfl,
    show win [1, 0, 0, 0] = 0 from rfl]
  rw [show (6 : Nat) :: 5 :: (length_to_uint8 (payload.length + 16) ++
      (uuid ++ (payload ++ [SEI_PAYLOAD_TERMINATION]))) = [6, 5] ++
      (length_to_uint8 (payload.length + 16) ++ (uuid ++ (payload ++ [SEI_PAYLOAD_TERMINATION])))
    from rfl]
  rw [epEmit_append_ge4 [6, 5] _ 0 (by simp) (by intro b hb; simp at hb; rcases hb with h | h <;> omega)]
  rfl

/-- Round-trip of the codec: decoding a freshly created SEI NAL unit
recovers the identifier and the payload, for any payload. -/
theorem decode_sei_create (uuid payload : List Nat) (hu : uuid.length = 16) :
    decode_sei (create_sei_nal_unit uuid payload) = some (uuid, payload) := by
  rw [create_sei_eq_emit]
  have hdec : epDecode 0 (6 :: 5 :: epEmit (length_to_uint8 (payload.length + 16) ++
      (uuid ++ (payload ++ [SEI_PAYLOAD_TERMINATION]))) 0) =
      6 :: 5 :: (length_to_uint8 (payload.length + 16) ++
      (uuid ++ (payload ++ [SEI_PAYLOAD_TERMINATION]))) := by
    rw [epDecode, if_neg (by omega)]
    rw [show (if (6 : Nat) = 0 then min 2 (0 + 1) else 0) = 0 from rfl]
    rw [epDecode, if_neg (by omega)]
    rw [show (if (5 : Nat) = 0 then min 2 (0 + 1) else 0) = 0 from rfl]
    rw [epDecode_epEmit]
  rw [decode_sei]
  rw [show ((0 : Nat) :: 0 :: 0 :: 1 :: 6 :: 5 :: epEmit (length_to_uint8 (payload.length + 16) ++
      (uuid ++ (payload ++ [SEI_PAYLOAD_TERMINATION]))) 0).take 4 = [0, 0, 0, 1] from rfl]
  rw [show ((0 : Nat) :: 0 :: 0 :: 1 :: 6 :: 5 :: epEmit (length_to_uint8 (payload.length + 16) ++
      (uuid ++ (payload ++ [SEI_PAYLOAD_TERMINATION]))) 0).drop 4 =
      6 :: 5 :: epEmit (length_to_uint8 (payload.length + 16) ++
      (uuid ++ (payload ++ [SEI_PAYLOAD_TERMINATION]))) 0 from rfl]
  rw [hdec, if_pos rfl]
  rw [show ((6 : Nat) :: 5 :: (length_to_uint8 (payload.length + 16) ++
      (uuid ++ (payload ++ [SEI_PAYLOAD_TERMINATION])))).take 2 = [6, 5] from rfl, if_pos rfl]
  rw [show ((6 : Nat) :: 5 :: (length_to_uint8 (payload.length + 16) ++
      (uuid ++ (payload ++ [SEI_PAYLOAD_TERMINATION])))).drop 2 =
      length_to_uint8 (payload.length + 16) ++
      (uuid ++ (payload ++ [SEI_PAYLOAD_TERMINATION])) from rfl]
  rw [parse_size_length_to_uint8]
  have hsplit : uuid ++ (payload ++ [SEI_PAYLOAD_TERMINATION]) =
      (uuid ++ payload) ++ [SEI_PAYLOAD_TERMINATION] := by
    simp
  have hdropn : (uuid ++ (payload ++ [SEI_PAYLOAD_TERMINATION])).drop (payload.length + 16) =
      [SEI_PAYLOAD_TERMINATION] := by
    rw [hsplit, List.drop_left' (by rw [List.length_append, hu]; omega)]
  have htake16 : (uuid ++ (payload ++ [SEI_PAYLOAD_TERMINATION])).take 16 = uuid := by
    rw [List.take_left' hu]
  have hdrop16 : (uuid ++ (payload ++ [SEI_PAYLOAD_TERMINATION])).drop 16 =
      payload ++ [SEI_PAYLOAD_TERMINATION] := by
    rw [List.drop_left' hu]
  have htakep : (payload ++ [SEI_PAYLOAD_TERMINATION]).take (payload.length + 16 - 16) = payload := by
    rw [show payload.length + 16 - 16 = payload.length by omega,
      List.take_left' rfl]
  simp only [hdropn, htake16, hdrop16, htakep]
  simp

/-- The first six bytes of every created SEI unit are the start code
and the two header bytes. -/
theorem create_sei_take6 (uuid payload : List Nat) :
    (create_sei_nal_unit uuid payload).take 6 = [0, 0, 0, 1, 6, 5] := by
  rw [create_sei_eq_emit]
  simp

/-- Every created SEI unit is at least 6 bytes long. -/
theorem create_sei_length_ge6 (uuid payload : List Nat) :
    6 ≤ (create_sei_nal_unit uuid payload).length := by
  rw [create_sei_eq_emit]
  simp

/-- The last byte of every created SEI unit is the termination byte
0x80 (escape bytes are only ever inserted in front of bytes ≤ 3). -/
theorem create_sei_getLast? (uuid payload : List Nat) :
    (create_sei_nal_unit uuid payload).getLast? = some SEI_PAYLOAD_TERMINATION := by
  rw [create_sei_eq_emit]
  have hT : length_to_uint8 (payload.length + 16) ++ (uuid ++ (payload ++ [SEI_PAYLOAD_TERMINATION])) ≠ [] := by
    intro h
    have h1 := length_to_uint8_length_pos (payload.length + 16)
    have h2 := congrArg List.length h
    rw [List.length_append] at h2
    simp only [List.length_nil] at h2
    omega
  have hlast : (length_to_uint8 (payload.length + 16) ++
      (uuid ++ (payload ++ [SEI_PAYLOAD_TERMINATION]))).getLast? = some SEI_PAYLOAD_TERMINATION := by
    rw [show length_to_uint8 (payload.length + 16) ++ (uuid ++ (payload ++ [SEI_PAYLOAD_TERMINATION])) =
      (length_to_uint8 (payload.length + 16) ++ uuid ++ payload) ++ [SEI_PAYLOAD_TERMINATION] by simp]
    exact List.getLast?_concat _
  have hE : (epEmit (length_to_uint8 (payload.length + 16) ++
      (uuid ++ (payload ++ [SEI_PAYLOAD_TERMINATION]))) 0).getLast? = some SEI_PAYLOAD_TERMINATION := by
    rw [epEmit_getLast? _ 0 hT, hlast]
  have hEne : (epEmit (length_to_uint8 (payload.length + 16) ++
      (uuid ++ (payload ++ [SEI_PAYLOAD_TERMINATION]))) 0) ≠ [] := by
    intro h
    rw [h] at hE
    simp [List.getLast?] at hE
  rw [show (0 : Nat) :: 0 :: 0 :: 1 :: 6 :: 5 :: epEmit (length_to_uint8 (payload.length + 16) ++
      (uuid ++ (payload ++ [SEI_PAYLOAD_TERMINATION]))) 0 = [0, 0, 0, 1, 6, 5] ++
      epEmit (length_to_uint8 (payload.length + 16) ++
      (uuid ++ (payload ++ [SEI_PAYLOAD_TERMINATION]))) 0 from rfl]
  rw [List.getLast?_append_of_ne_nil _ hEne, hE]

/-- No 3-byte start code `00 00 01` occurs in a created SEI unit at
any offset ≥ 2. -/
theorem create_sei_no001 (uuid payload : List Nat) (p : Nat) (hp : 2 ≤ p) :
    ¬ ([0, 0, 1] <+: (create_sei_nal_unit uuid payload).drop p) := by
  rw [create_sei_nal_unit]
  exact dep_no001 _ p hp

/-- Every SEI unit created with the fixed identifier carries the
16 identifier bytes contiguously (they are all ≥ 4, so emulation
prevention never breaks them up). -/
theorem create_sei_uuid_infix (payload : List Nat) :
    SEND_SEI_UUID <:+: create_sei_nal_unit SEND_SEI_UUID payload := by
  rw [create_sei_eq_emit]
  rw [show SEND_SEI_UUID ++ (payload ++ [SEI_PAYLOAD_TERMINATION]) =
    SEND_SEI_UUID ++ (payload ++ [SEI_PAYLOAD_TERMINATION]) from rfl]
  obtain ⟨pre, z', hsplit⟩ := epEmit_append_split (length_to_uint8 (payload.length + 16))
    (SEND_SEI_UUID ++ (payload ++ [SEI_PAYLOAD_TERMINATION])) 0
  rw [hsplit, epEmit_append_ge4 SEND_SEI_UUID _ z' (by simp [SEND_SEI_UUID])
    (by intro b hb; simp [SEND_SEI_UUID] at hb; omega)]
  exact ⟨0 :: 0 :: 0 :: 1 :: 6 :: 5 :: pre,
    epEmit (payload ++ [SEI_PAYLOAD_TERMINATION]) 0, by simp⟩

/-!
## Frame scanning and insertion

`find_insert_position` scans for the first NAL unit of coded-slice
type (1..5); the keyframe scan looks for IDR/SPS/PPS (5/7/8).  Both
read the frame through `List.getD` with default 0; every read the C
code performs is in bounds when the corresponding loop guard holds,
so the default is never consulted.
-/

/-- The scan loop of `find_insert_position` (lines 145-169): at each
offset try the 3-byte start code, then the 4-byte start code, and
skip past a recognised non-slice NAL unit (the C `i += 3` / `i += 4`
plus the loop increment). -/
def find_insert_position_loop (frame : List Nat) (i : Nat) : Option Nat :=
  if h : i < frame.length - 4 then
    if frame.getD i 0 = 0 ∧ frame.getD (i + 1) 0 = 0 ∧ frame.getD (i + 2) 0 = 1 then
      if 1 ≤ frame.getD (i + 3) 0 % 32 ∧ frame.getD (i + 3) 0 % 32 ≤ 5 then some i
      else find_insert_position_loop frame (i + 4)
    else if i < frame.length - 5 ∧ frame.getD i 0 = 0 ∧ frame.getD (i + 1) 0 = 0 ∧
        frame.getD (i + 2) 0 = 0 ∧ frame.getD (i + 3) 0 = 1 then
      if 1 ≤ frame.getD (i + 4) 0 % 32 ∧ frame.getD (i + 4) 0 % 32 ≤ 5 then some i
      else find_insert_position_loop frame (i + 5)
    else find_insert_position_loop frame (i + 1)
  else none
termination_by frame.length - i
decreasing_by all_goals omega

/-- `find_insert_position`: offset of the first coded-slice NAL unit,
`none` when there is none (the C code returns -1 and the caller
prepends). -/
def find_insert_position (frame : List Nat) : Option Nat :=
  find_insert_position_loop frame 0

/-- `insert_sei_unit` (lines 174-199): splice the SEI unit in front
of the found NAL unit, or prepend when none was found.  Allocation is
modelled as always succeeding. -/
def insert_sei_unit (frame sei : List Nat) : List Nat :=
  match find_insert_position frame with
  | some p => frame.take p ++ sei ++ frame.drop p
  | none => sei ++ frame

/-- The keyframe scan of `sei_publisher_process_frame`
(lines 350-363): look for a 4-byte or 3-byte start code followed by a
NAL unit of type IDR (5), SPS (7) or PPS (8). -/
def keyframe_scan (frame : List Nat) (i : Nat) : Bool :=
  if i < frame.length - 4 then
    if (frame.getD i 0 = 0 ∧ frame.getD (i + 1) 0 = 0 ∧ frame.getD (i + 2) 0 = 0 ∧
        frame.getD (i + 3) 0 = 1) ∨
       (frame.getD i 0 = 0 ∧ frame.getD (i + 1) 0 = 0 ∧ frame.getD (i + 2) 0 = 1) then
      if (if frame.getD (i + 2) 0 = 1 then i + 3 else i + 4) < frame.length then
        if frame.getD (if frame.getD (i + 2) 0 = 1 then i + 3 else i + 4) 0 % 32 = 5 ∨
            frame.getD (if frame.getD (i + 2) 0 = 1 then i + 3 else i + 4) 0 % 32 = 7 ∨
            frame.getD (if frame.getD (i + 2) 0 = 1 then i + 3 else i + 4) 0 % 32 = 8 then true
        else keyframe_scan frame (i + 1)
      else keyframe_scan frame (i + 1)
    else keyframe_scan frame (i + 1)
  else false
termination_by frame.length - i
decreasing_by all_goals omega

/-- The keyframe test of `sei_publisher_process_frame` (lines
346-364): guarded by `frame_size >= 4`, then the scan. -/
def is_keyframe (frame : List Nat) : Bool :=
  decide (4 ≤ frame.length) && keyframe_scan frame 0

/-- The scan loop only ever returns offsets at or beyond its current
position. -/
theorem fipl_mono (frame : List Nat) :
    ∀ n i q, frame.length - i ≤ n → find_insert_position_loop frame i = some q → i ≤ q := by
  intro n
  induction n with
  | zero =>
    intro i q hn h
    rw [find_insert_position_loop, dif_neg (by omega)] at h
    exact absurd h (by simp)
  | succ n ih =>
    intro i q hn h
    rw [find_insert_position_loop] at h
    by_cases hb : i < frame.length - 4
    · rw [dif_pos hb] at h
      split_ifs at h with h1 h2 h3 h4
      · injection h with h; omega
      · have := ih (i + 4) q (by omega) h; omega
      · injection h with h; omega
      · have := ih (i + 5) q (by omega) h; omega
      · have := ih (i + 1) q (by omega) h; omega
    · rw [dif_neg hb] at h
      exact absurd h (by simp)

/-- The scan loop only ever returns offsets within the loop bound. -/
theorem fipl_bound (frame : List Nat) :
    ∀ n i q, frame.length - i ≤ n → find_insert_position_loop frame i = some q →
      q < frame.length - 4 := by
  intro n
  induction n with
  | zero =>
    intro i q hn h
    rw [find_insert_position_loop, dif_neg (by omega)] at h
    exact absurd h (by simp)
  | succ n ih =>
    intro i q hn h
    rw [find_insert_position_loop] at h
    by_cases hb : i < frame.length - 4
    · rw [dif_pos hb] at h
      split_ifs at h with h1 h2 h3 h4
      · injection h with h; omega
      · exact ih (i + 4) q (by omega) h
      · injection h with h; omega
      · exact ih (i + 5) q (by omega) h
      · exact ih (i + 1) q (by omega) h
    · rw [dif_neg hb] at h
      exact absurd h (by simp)

/-- A scan step at an offset where neither start-code pattern matches
moves on to the next offset. -/
theorem fipl_step (g : List Nat) (j : Nat) (hb : j < g.length - 4)
    (h3 : ¬(g.getD j 0 = 0 ∧ g.getD (j + 1) 0 = 0 ∧ g.getD (j + 2) 0 = 1))
    (h4 : ¬(j < g.length - 5 ∧ g.getD j 0 = 0 ∧ g.getD (j + 1) 0 = 0 ∧ g.getD (j + 2) 0 = 0 ∧
      g.getD (j + 3) 0 = 1)) :
    find_insert_position_loop g j = find_insert_position_loop g (j + 1) := by
  conv_lhs => rw [find_insert_position_loop]
  rw [dif_pos hb, if_neg h3, if_neg h4]

/-- Chain `fipl_step` over a whole interval. -/
theorem fipl_walk (g : List Nat) :
    ∀ n start fin, fin - start ≤ n → start ≤ fin →
      (∀ j, start ≤ j → j < fin →
        find_insert_position_loop g j = find_insert_position_loop g (j + 1)) →
      find_insert_position_loop g start = find_insert_position_loop g fin := by
  intro n
  induction n with
  | zero =>
    intro start fin hn hle _
    rw [show fin = start by omega]
  | succ n ih =>
    intro start fin hn hle hstep
    by_cases heq : start = fin
    · rw [heq]
    · rw [hstep start le_rfl (by omega)]
      exact ih (start + 1) fin (by omega) (by omega)
        (fun j hj1 hj2 => hstep j (by omega) hj2)

/-- Reading the spliced frame below the insertion point. -/
theorem getD_insert_lt (f sei : List Nat) (p j : Nat) (hp : p ≤ f.length) (hj : j < p) :
    (f.take p ++ sei ++ f.drop p).getD j 0 = f.getD j 0 := by
  have h1 : j < (f.take p).length := by rw [List.length_take]; omega
  have h2 : j < (f.take p ++ sei).length := by rw [List.length_append]; omega
  simp only [List.getD_eq_getElem?_getD]
  rw [List.getElem?_append_left h2, List.getElem?_append_left h1,
    List.getElem?_take_of_lt hj]

/-- Reading the spliced frame inside the inserted unit. -/
theorem getD_insert_mid (f sei : List Nat) (p j : Nat) (hp : p ≤ f.length)
    (hj : j < sei.length) :
    (f.take p ++ sei ++ f.drop p).getD (p + j) 0 = sei.getD j 0 := by
  have hlt : (f.take p).length = p := by rw [List.length_take]; omega
  have h2 : p + j < (f.take p ++ sei).length := by rw [List.length_append]; omega
  simp only [List.getD_eq_getElem?_getD]
  rw [List.getElem?_append_left h2, List.getElem?_append_right (by omega), hlt,
    show p + j - p = j by omega]

/-- Reading the spliced frame beyond the inserted unit. -/
theorem getD_insert_ge (f sei : List Nat) (p j : Nat) (hp : p ≤ f.length) :
    (f.take p ++ sei ++ f.drop p).getD (p + sei.length + j) 0 = f.getD (p + j) 0 := by
  have hlt : (f.take p).length = p := by rw [List.length_take]; omega
  have h2 : (f.take p ++ sei).length = p + sei.length := by rw [List.length_append]; omega
  simp only [List.getD_eq_getElem?_getD]
  rw [List.getElem?_append_right (by omega), h2,
    show p + sei.length + j - (p + sei.length) = j by omega, List.getElem?_drop]

/-- Length of the spliced frame. -/
theorem length_insert (f sei : List Nat) (p : Nat) (hp : p ≤ f.length) :
    (f.take p ++ sei ++ f.drop p).length = f.length + sei.length := by
  simp only [List.length_append, List.length_take, List.length_drop]
  omega

theorem getD_eq_getElem (l : List Nat) (k : Nat) (h : k < l.length) : l.getD k 0 = l[k] := by
  simp [List.getD_eq_getElem?_getD, List.getElem?_eq_getElem h]

/-- From three pointwise reads to a `00 00 01` occurrence. -/
theorem prefix001_of_getD (l : List Nat) (k : Nat) (h2 : k + 2 < l.length)
    (ha : l.getD k 0 = 0) (hb : l.getD (k + 1) 0 = 0) (hc : l.getD (k + 2) 0 = 1) :
    [0, 0, 1] <+: l.drop k := by
  have e1 : l.drop k = l[k] :: l.drop (k + 1) := List.drop_eq_getElem_cons (by omega)
  have e2 : l.drop (k + 1) = l[k + 1] :: l.drop (k + 2) := List.drop_eq_getElem_cons (by omega)
  have e3 : l.drop (k + 2) = l[k + 2] :: l.drop (k + 3) := List.drop_eq_getElem_cons (by omega)
  rw [e1, e2, e3, ← getD_eq_getElem l k (by omega), ← getD_eq_getElem l (k + 1) (by omega),
    ← getD_eq_getElem l (k + 2) (by omega), ha, hb, hc]
  exact ⟨l.drop (k + 3), rfl⟩

/-- When the scan returns its own starting offset, that offset carries
one of the two start-code patterns with a coded-slice type. -/
theorem fipl_self (f : List Nat) (p : Nat)
    (h : find_insert_position_loop f p = some p) :
    p < f.length - 4 ∧
    ((f.getD p 0 = 0 ∧ f.getD (p + 1) 0 = 0 ∧ f.getD (p + 2) 0 = 1 ∧
        1 ≤ f.getD (p + 3) 0 % 32 ∧ f.getD (p + 3) 0 % 32 ≤ 5) ∨
      (¬(f.getD p 0 = 0 ∧ f.getD (p + 1) 0 = 0 ∧ f.getD (p + 2) 0 = 1) ∧
        p < f.length - 5 ∧ f.getD p 0 = 0 ∧ f.getD (p + 1) 0 = 0 ∧ f.getD (p + 2) 0 = 0 ∧
        f.getD (p + 3) 0 = 1 ∧ 1 ≤ f.getD (p + 4) 0 % 32 ∧ f.getD (p + 4) 0 % 32 ≤ 5)) := by
  rw [find_insert_position_loop] at h
  by_cases hb : p < f.length - 4
  · refine ⟨hb, ?_⟩
    rw [dif_pos hb] at h
    split_ifs at h with h1 h2 h3 h4
    · exact Or.inl ⟨h1.1, h1.2.1, h1.2.2, h2.1, h2.2⟩
    · exfalso; have := fipl_mono f f.length (p + 4) p (by omega) h; omega
    · exact Or.inr ⟨h1, h3.1, h3.2.1, h3.2.2.1, h3.2.2.2.1, h3.2.2.2.2, h4.1, h4.2⟩
    · exfalso; have := fipl_mono f f.length (p + 5) p (by omega) h; omega
    · exfalso; have := fipl_mono f f.length (p + 1) p (by omega) h; omega
  · rw [dif_neg hb] at h; exact absurd h (by simp)

/-- The scan fires on a 3-byte start code with a coded-slice type. -/
theorem fipl_fire3 (g : List Nat) (q : Nat) (hb : q < g.length - 4)
    (h1 : g.getD q 0 = 0) (h2 : g.getD (q + 1) 0 = 0) (h3 : g.getD (q + 2) 0 = 1)
    (h4 : 1 ≤ g.getD (q + 3) 0 % 32) (h5 : g.getD (q + 3) 0 % 32 ≤ 5) :
    find_insert_position_loop g q = some q := by
  rw [find_insert_position_loop, dif_pos hb, if_pos ⟨h1, h2, h3⟩, if_pos ⟨h4, h5⟩]

/-- The scan fires on a 4-byte start code with a coded-slice type. -/
theorem fipl_fire4 (g : List Nat) (q : Nat) (hb : q < g.length - 4)
    (hn3 : ¬(g.getD q 0 = 0 ∧ g.getD (q + 1) 0 = 0 ∧ g.getD (q + 2) 0 = 1))
    (hb5 : q < g.length - 5)
    (h1 : g.getD q 0 = 0) (h2 : g.getD (q + 1) 0 = 0) (h3 : g.getD (q + 2) 0 = 0)
    (h4 : g.getD (q + 3) 0 = 1)
    (h5 : 1 ≤ g.getD (q + 4) 0 % 32) (h6 : g.getD (q + 4) 0 % 32 ≤ 5) :
    find_insert_position_loop g q = some q := by
  rw [find_insert_position_loop, dif_pos hb, if_neg hn3, if_pos ⟨hb5, h1, h2, h3, h4⟩,
    if_pos ⟨h5, h6⟩]

/-- `getD_insert_mid` with an absolute index. -/
theorem getD_insert_mid' (f sei : List Nat) (p j : Nat) (hp : p ≤ f.length)
    (hj1 : p ≤ j) (hj2 : j < p + sei.length) :
    (f.take p ++ sei ++ f.drop p).getD j 0 = sei.getD (j - p) 0 := by
  rw [show j = p + (j - p) by omega]
  rw [getD_insert_mid f sei p (j - p) hp (by omega), show p + (j - p) - p = j - p by omega]

/-- `getD_insert_ge` with an absolute index. -/
theorem getD_insert_ge' (f sei : List Nat) (p j : Nat) (hp : p ≤ f.length)
    (hj : p + sei.length ≤ j) :
    (f.take p ++ sei ++ f.drop p).getD j 0 = f.getD (j - sei.length) 0 := by
  rw [show j = p + sei.length + (j - p - sei.length) by omega,
    getD_insert_ge f sei p (j - p - sei.length) hp,
    show p + (j - p - sei.length) = p + sei.length + (j - p - sei.length) - sei.length by omega]

/-- Key re-insertion lemma, firing case: when the scan fires at `p` on
`f`, it fires at `p + sei.length` on the frame with the SEI unit
spliced in at `p`.  The scan recognises the spliced unit's own 4-byte
start code, skips it (type 6 is not a slice), walks through the
unit's interior (which contains no start-code pattern) and across its
final 0x80 byte, and then meets the original slice start code. -/
theorem fipl_insert_at (f sei : List Nat) (p : Nat)
    (h6 : sei.take 6 = [0, 0, 0, 1, 6, 5])
    (hlast : sei.getLast? = some 128)
    (hno : ∀ q, 2 ≤ q → ¬([0, 0, 1] <+: sei.drop q))
    (hfire : find_insert_position_loop f p = some p) :
    find_insert_position_loop (f.take p ++ sei ++ f.drop p) p = some (p + sei.length) := by
  have hL6 : 6 ≤ sei.length := by
    have := congrArg List.length h6
    rw [List.length_take] at this
    simp at this
    omega
  have hs : ∀ j, j < 6 → sei.getD j 0 = ([0, 0, 0, 1, 6, 5] : List Nat).getD j 0 := by
    intro j hj
    simp only [List.getD_eq_getElem?_getD]
    rw [← List.getElem?_take_of_lt hj, h6]
  have hs0 : sei.getD 0 0 = 0 := by rw [hs 0 (by omega)]; rfl
  have hs1 : sei.getD 1 0 = 0 := by rw [hs 1 (by omega)]; rfl
  have hs2 : sei.getD 2 0 = 0 := by rw [hs 2 (by omega)]; rfl
  have hs3 : sei.getD 3 0 = 1 := by rw [hs 3 (by omega)]; rfl
  have hs4 : sei.getD 4 0 = 6 := by rw [hs 4 (by omega)]; rfl
  have hsL : sei.getD (sei.length - 1) 0 = 128 := by
    simp only [List.getD_eq_getElem?_getD]
    rw [← List.getLast?_eq_getElem?, hlast]
    rfl
  obtain ⟨hpb, hdisj⟩ := fipl_self f p hfire
  have hplen : p ≤ f.length := by omega
  have hglen : (f.take p ++ sei ++ f.drop p).length = f.length + sei.length :=
    length_insert f sei p hplen
  have hmid := getD_insert_mid' f sei p
  have hge := getD_insert_ge' f sei p
  -- the per-byte contradiction used in the interior walk
  have hnoD : ∀ k, 2 ≤ k → k + 2 < sei.length →
      ¬(sei.getD k 0 = 0 ∧ sei.getD (k + 1) 0 = 0 ∧ sei.getD (k + 2) 0 = 1) := by
    rintro k hk2 hklt ⟨ha, hb, hc⟩
    exact hno k hk2 (prefix001_of_getD sei k hklt ha hb hc)
  -- step 1: the scan at p sees the spliced unit's 4-byte start
  -- code with type 6 and skips to p + 5
  have hstep1 : find_insert_position_loop (f.take p ++ sei ++ f.drop p) p =
      find_insert_position_loop (f.take p ++ sei ++ f.drop p) (p + 5) := by
    conv_lhs => rw [find_insert_position_loop]
    rw [dif_pos (by omega)]
    rw [if_neg (by
      rw [hmid p hplen (by omega) (by omega), hmid (p + 1) hplen (by omega) (by omega),
        hmid (p + 2) hplen (by omega) (by omega)]
      rw [show p - p = 0 by omega, show p + 1 - p = 1 by omega, show p + 2 - p = 2 by omega,
        hs0, hs1, hs2]
      omega)]
    rw [if_pos (by
      refine ⟨by omega, ?_, ?_, ?_, ?_⟩ <;>
        rw [hmid _ hplen (by omega) (by omega)]
      · rw [show p - p = 0 by omega, hs0]
      · rw [show p + 1 - p = 1 by omega, hs1]
      · rw [show p + 2 - p = 2 by omega, hs2]
      · rw [show p + 3 - p = 3 by omega, hs3])]
    rw [if_neg (by
      rw [hmid (p + 4) hplen (by omega) (by omega), show p + 4 - p = 4 by omega, hs4]
      omega)]
  -- step 2: the interior of the unit, and its final byte, match no
  -- start-code pattern, so the scan walks bytewise to p + sei.length
  have hstep2 : find_insert_position_loop (f.take p ++ sei ++ f.drop p) (p + 5) =
      find_insert_position_loop (f.take p ++ sei ++ f.drop p) (p + sei.length) := by
    refine fipl_walk _ sei.length (p + 5) (p + sei.length) (by omega) (by omega) ?_
    intro j hj1 hj2
    refine fipl_step _ j (by omega) ?_ ?_
    · -- no 3-byte start code inside the unit or across its end
      rintro ⟨ha, hb, hc⟩
      by_cases hk : j + 2 < p + sei.length
      · -- entirely inside the unit
        rw [hmid j hplen (by omega) (by omega)] at ha
        rw [hmid (j + 1) hplen (by omega) (by omega)] at hb
        rw [hmid (j + 2) hplen (by omega) (by omega)] at hc
        refine hnoD (j - p) (by omega) (by omega) ⟨ha, ?_, ?_⟩
        · rw [show j + 1 - p = j - p + 1 by omega] at hb; exact hb
        · rw [show j + 2 - p = j - p + 2 by omega] at hc; exact hc
      · by_cases hk1 : j + 1 < p + sei.length
        · -- j + 1 is the unit's last byte 0x80, which is not 0
          rw [hmid (j + 1) hplen (by omega) (by omega),
            show j + 1 - p = sei.length - 1 by omega, hsL] at hb
          omega
        · -- j is the unit's last byte 0x80, which is not 0
          rw [hmid j hplen (by omega) (by omega),
            show j - p = sei.length - 1 by omega, hsL] at ha
          omega
    · -- no 4-byte start code inside the unit or across its end
      rintro ⟨-, ha, hb, hc, hd⟩
      by_cases hk : j + 3 < p + sei.length
      · -- entirely inside the unit: bytes j+1 j+2 j+3 would be 00 00 01
        rw [hmid (j + 1) hplen (by omega) (by omega)] at hb
        rw [hmid (j + 2) hplen (by omega) (by omega)] at hc
        rw [hmid (j + 3) hplen (by omega) (by omega)] at hd
        refine hnoD (j + 1 - p) (by omega) (by omega) ⟨hb, ?_, ?_⟩
        · rw [show j + 2 - p = j + 1 - p + 1 by omega] at hc; exact hc
        · rw [show j + 3 - p = j + 1 - p + 2 by omega] at hd; exact hd
      · by_cases hk2 : j + 2 < p + sei.length
        · -- j + 2 is the unit's last byte 0x80, which is not 0
          rw [hmid (j + 2) hplen (by omega) (by omega),
            show j + 2 - p = sei.length - 1 by omega, hsL] at hc
          omega
        · by_cases hk1 : j + 1 < p + sei.length
          · -- j + 1 is the unit's last byte 0x80, which is not 0
            rw [hmid (j + 1) hplen (by omega) (by omega),
              show j + 1 - p = sei.length - 1 by omega, hsL] at hb
            omega
          · -- j is the unit's last byte 0x80, which is not 0
            rw [hmid j hplen (by omega) (by omega),
              show j - p = sei.length - 1 by omega, hsL] at ha
            omega
  -- step 3: at p + sei.length the original start code fires
  have hstep3 : find_insert_position_loop (f.take p ++ sei ++ f.drop p) (p + sei.length) =
      some (p + sei.length) := by
    have ht : ∀ m, (f.take p ++ sei ++ f.drop p).getD (p + sei.length + m) 0 =
        f.getD (p + m) 0 := by
      intro m
      rw [hge (p + sei.length + m) hplen (by omega),
        show p + sei.length + m - sei.length = p + m by omega]
    rcases hdisj with ⟨ha, hb, hc, hd, he⟩ | ⟨hn3, hb5, ha, hb, hc, hd, he, hf2⟩
    · refine fipl_fire3 _ _ (by omega) ?_ ?_ ?_ ?_ ?_
      · rw [show p + sei.length = p + sei.length + 0 by omega, ht 0,
          show p + 0 = p by omega]; exact ha
      · rw [show p + sei.length + 1 = p + sei.length + 1 by omega, ht 1]; exact hb
      · rw [ht 2]; exact hc
      · rw [ht 3]; exact hd
      · rw [ht 3]; exact he
    · refine fipl_fire4 _ _ (by omega) ?_ (by omega) ?_ ?_ ?_ ?_ ?_ ?_
      · rw [show p + sei.length = p + sei.length + 0 by omega, ht 0, ht 1, ht 2,
          show p + 0 = p by omega]
        exact hn3
      · rw [show p + sei.length = p + sei.length + 0 by omega, ht 0,
          show p + 0 = p by omega]; exact ha
      · rw [ht 1]; exact hb
      · rw [ht 2]; exact hc
      · rw [ht 3]; exact hd
      · rw [ht 4]; exact he
      · rw [ht 4]; exact hf2
  rw [hstep1, hstep2, hstep3]

/-- Key re-insertion lemma, full form: if the scan started at `i ≤ p`
finds `p` on `f`, then on the frame with the SEI unit spliced in at
`p` it finds `p + sei.length`: below `p` both frames agree and the
scan takes the same steps, and at `p` the previous lemma applies. -/
theorem fipl_insert (f sei : List Nat) (p : Nat)
    (h6 : sei.take 6 = [0, 0, 0, 1, 6, 5])
    (hlast : sei.getLast? = some 128)
    (hno : ∀ q, 2 ≤ q → ¬([0, 0, 1] <+: sei.drop q)) :
    ∀ n i, p - i ≤ n → i ≤ p → find_insert_position_loop f i = some p →
      find_insert_position_loop (f.take p ++ sei ++ f.drop p) i = some (p + sei.length) := by
  intro n
  induction n with
  | zero =>
    intro i hn hip h
    rw [show i = p by omega] at h ⊢
    exact fipl_insert_at f sei p h6 hlast hno h
  | succ n ih =>
    intro i hn hip h
    by_cases hip' : i = p
    · rw [hip'] at h ⊢
      exact fipl_insert_at f sei p h6 hlast hno h
    · have hilt : i < p := by omega
      have hpb : p < f.length - 4 := fipl_bound f f.length i p (by omega) h
      have hplen : p ≤ f.length := by omega
      have hglen := length_insert f sei p hplen
      have hL6 : 6 ≤ sei.length := by
        have := congrArg List.length h6
        rw [List.length_take] at this
        simp at this
        omega
      have hs : ∀ j, j < 6 → sei.getD j 0 = ([0, 0, 0, 1, 6, 5] : List Nat).getD j 0 := by
        intro j hj
        simp only [List.getD_eq_getElem?_getD]
        rw [← List.getElem?_take_of_lt hj, h6]
      have hs0 : sei.getD 0 0 = 0 := by rw [hs 0 (by omega)]; rfl
      have hs1 : sei.getD 1 0 = 0 := by rw [hs 1 (by omega)]; rfl
      have hs2 : sei.getD 2 0 = 0 := by rw [hs 2 (by omega)]; rfl
      rw [find_insert_position_loop] at h
      by_cases hb : i < f.length - 4
      · rw [dif_pos hb] at h
        split_ifs at h with h1 h2 h3 h4
        · exfalso; injection h with h; exact hip' h
        · have hjump : i + 4 ≤ p := fipl_mono f f.length (i + 4) p (by omega) h
          conv_lhs => rw [find_insert_position_loop]
          rw [dif_pos (by omega)]
          rw [if_pos (⟨by rw [getD_insert_lt f sei p i hplen (by omega)]; exact h1.1,
            by rw [getD_insert_lt f sei p (i + 1) hplen (by omega)]; exact h1.2.1,
            by rw [getD_insert_lt f sei p (i + 2) hplen (by omega)]; exact h1.2.2⟩)]
          rw [if_neg (by
            rw [getD_insert_lt f sei p (i + 3) hplen (by omega)]
            exact h2)]
          exact ih (i + 4) (by omega) (by omega) h
        · exfalso; injection h with h; exact hip' h
        · have hjump : i + 5 ≤ p := fipl_mono f f.length (i + 5) p (by omega) h
          conv_lhs => rw [find_insert_position_loop]
          rw [dif_pos (by omega)]
          rw [if_neg (by
            rw [getD_insert_lt f sei p i hplen (by omega),
              getD_insert_lt f sei p (i + 1) hplen (by omega),
              getD_insert_lt f sei p (i + 2) hplen (by omega)]
            exact h1)]
          rw [if_pos (⟨by omega,
            by rw [getD_insert_lt f sei p i hplen (by omega)]; exact h3.2.1,
            by rw [getD_insert_lt f sei p (i + 1) hplen (by omega)]; exact h3.2.2.1,
            by rw [getD_insert_lt f sei p (i + 2) hplen (by omega)]; exact h3.2.2.2.1,
            by rw [getD_insert_lt f sei p (i + 3) hplen (by omega)]; exact h3.2.2.2.2⟩)]
          rw [if_neg (by
            rw [getD_insert_lt f sei p (i + 4) hplen (by omega)]
            exact h4)]
          exact ih (i + 5) (by omega) (by omega) h
        · have hjump : i + 1 ≤ p := fipl_mono f f.length (i + 1) p (by omega) h
          have h3g : ¬((f.take p ++ sei ++ f.drop p).getD i 0 = 0 ∧
              (f.take p ++ sei ++ f.drop p).getD (i + 1) 0 = 0 ∧
              (f.take p ++ sei ++ f.drop p).getD (i + 2) 0 = 1) := by
            rintro ⟨ha, hb', hc⟩
            by_cases hc2 : i + 2 < p
            · refine h1 ⟨?_, ?_, ?_⟩
              · rw [← getD_insert_lt f sei p i hplen (by omega)]; exact ha
              · rw [← getD_insert_lt f sei p (i + 1) hplen (by omega)]; exact hb'
              · rw [← getD_insert_lt f sei p (i + 2) hplen (by omega)]; exact hc
            · rw [getD_insert_mid' f sei p (i + 2) hplen (by omega) (by omega)] at hc
              have h01 : i + 2 - p = 0 ∨ i + 2 - p = 1 := by omega
              rcases h01 with h' | h' <;> rw [h'] at hc
              · rw [hs0] at hc; omega
              · rw [hs1] at hc; omega
          have h4g : ¬(i < (f.take p ++ sei ++ f.drop p).length - 5 ∧
              (f.take p ++ sei ++ f.drop p).getD i 0 = 0 ∧
              (f.take p ++ sei ++ f.drop p).getD (i + 1) 0 = 0 ∧
              (f.take p ++ sei ++ f.drop p).getD (i + 2) 0 = 0 ∧
              (f.take p ++ sei ++ f.drop p).getD (i + 3) 0 = 1) := by
            rintro ⟨hb5g, ha, hb', hc, hd⟩
            by_cases hd3 : i + 3 < p
            · refine h3 ⟨by omega, ?_, ?_, ?_, ?_⟩
              · rw [← getD_insert_lt f sei p i hplen (by omega)]; exact ha
              · rw [← getD_insert_lt f sei p (i + 1) hplen (by omega)]; exact hb'
              · rw [← getD_insert_lt f sei p (i + 2) hplen (by omega)]; exact hc
              · rw [← getD_insert_lt f sei p (i + 3) hplen (by omega)]; exact hd
            · rw [getD_insert_mid' f sei p (i + 3) hplen (by omega) (by omega)] at hd
              have h012 : i + 3 - p = 0 ∨ i + 3 - p = 1 ∨ i + 3 - p = 2 := by omega
              rcases h012 with h' | h' | h' <;> rw [h'] at hd
              · rw [hs0] at hd; omega
              · rw [hs1] at hd; omega
              · rw [hs2] at hd; omega
          rw [fipl_step _ i (by omega) h3g h4g]
          exact ih (i + 1) (by omega) (by omega) h
      · rw [dif_neg hb] at h
        exact absurd h (by simp)

/-- `find_insert_position` on a frame with an SEI unit spliced in at
the found offset: the unit itself is skipped and the original slice
NAL unit is found again, right after the unit. -/
theorem find_insert_position_insert (f sei : List Nat) (p : Nat)
    (h6 : sei.take 6 = [0, 0, 0, 1, 6, 5])
    (hlast : sei.getLast? = some 128)
    (hno : ∀ q, 2 ≤ q → ¬([0, 0, 1] <+: sei.drop q))
    (h : find_insert_position f = some p) :
    find_insert_position (f.take p ++ sei ++ f.drop p) = some (p + sei.length) := by
  exact fipl_insert f sei p h6 hlast hno p 0 (by omega)
    (fipl_mono f f.length 0 p (by omega) h) h

theorem insert_sei_unit_some (frame sei : List Nat) (p : Nat)
    (h : find_insert_position frame = some p) :
    insert_sei_unit frame sei = frame.take p ++ sei ++ frame.drop p := by
  rw [insert_sei_unit, h]

/-- Splicing the same created SEI unit three times in a row puts the
three copies consecutively, all immediately in front of the slice NAL
unit originally found at `p`. -/
theorem insert_sei_unit_three (f uuid payload : List Nat) (p : Nat)
    (h : find_insert_position f = some p) :
    insert_sei_unit (insert_sei_unit (insert_sei_unit f
        (create_sei_nal_unit uuid payload)) (create_sei_nal_unit uuid payload))
        (create_sei_nal_unit uuid payload) =
      f.take p ++ create_sei_nal_unit uuid payload ++ create_sei_nal_unit uuid payload ++
        create_sei_nal_unit uuid payload ++ f.drop p := by
  have h6 := create_sei_take6 uuid payload
  have hlast : (create_sei_nal_unit uuid payload).getLast? = some 128 :=
    create_sei_getLast? uuid payload
  have hno := create_sei_no001 uuid payload
  have hp : p < f.length - 4 := fipl_bound f f.length 0 p (by omega) h
  have hplen : p ≤ f.length := by omega
  have hlen1 : (f.take p ++ create_sei_nal_unit uuid payload).length =
      p + (create_sei_nal_unit uuid payload).length := by
    rw [List.length_append, List.length_take]; omega
  have hfp1 := find_insert_position_insert f (create_sei_nal_unit uuid payload) p h6 hlast hno h
  have e1 : insert_sei_unit f (create_sei_nal_unit uuid payload) =
      f.take p ++ create_sei_nal_unit uuid payload ++ f.drop p := by
    rw [insert_sei_unit, h]
  have e2 : insert_sei_unit (f.take p ++ create_sei_nal_unit uuid payload ++ f.drop p)
        (create_sei_nal_unit uuid payload) =
      (f.take p ++ create_sei_nal_unit uuid payload) ++ create_sei_nal_unit uuid payload ++
        f.drop p := by
    rw [insert_sei_unit_some _ _ _ hfp1, List.take_left' hlen1, List.drop_left' hlen1]
  have hfp2 : find_insert_position ((f.take p ++ create_sei_nal_unit uuid payload) ++
        create_sei_nal_unit uuid payload ++ f.drop p) =
      some (p + (create_sei_nal_unit uuid payload).length +
        (create_sei_nal_unit uuid payload).length) := by
    have h2 := find_insert_position_insert
      (f.take p ++ create_sei_nal_unit uuid payload ++ f.drop p)
      (create_sei_nal_unit uuid payload)
      (p + (create_sei_nal_unit uuid payload).length) h6 hlast hno hfp1
    rw [List.take_left' hlen1, List.drop_left' hlen1] at h2
    exact h2
  have hlen2 : ((f.take p ++ create_sei_nal_unit uuid payload) ++
        create_sei_nal_unit uuid payload).length =
      p + (create_sei_nal_unit uuid payload).length +
        (create_sei_nal_unit uuid payload).length := by
    rw [List.length_append, hlen1]
  have e3 : insert_sei_unit ((f.take p ++ create_sei_nal_unit uuid payload) ++
        create_sei_nal_unit uuid payload ++ f.drop p) (create_sei_nal_unit uuid payload) =
      ((f.take p ++ create_sei_nal_unit uuid payload) ++ create_sei_nal_unit uuid payload) ++
        create_sei_nal_unit uuid payload ++ f.drop p := by
    rw [insert_sei_unit_some _ _ _ hfp2, List.take_left' hlen2, List.drop_left' hlen2]
  rw [e1, e2, e3]

/-!
## Message queue, publisher state, frame processing
-/

/-- `sei_message_t` from the header; `payload_size` is the length of
`payload`, `repeat_count` is a C `int`, `timestamp` the millisecond
tick. -/
structure sei_message_t where
  payload : List Nat
  repeat_count : Int
  timestamp : Nat
deriving DecidableEq

/-- The all-zero message that a freshly `calloc`ed queue slot holds. -/
def defaultMsg : sei_message_t := ⟨[], 0, 0⟩

/-- `sei_publisher_t` (lines 34-41): a fixed array of
`SEI_MAX_QUEUE_SIZE` slots with head/tail indices and a count.  The
mutex is modelled as always acquired. -/
structure sei_publisher_t where
  message_queue : List sei_message_t
  queue_head : Nat
  queue_tail : Nat
  queue_count : Nat
deriving DecidableEq

/-- `sei_publisher_init` (lines 203-224): `calloc` zeroes everything. -/
def sei_publisher_init : sei_publisher_t :=
  ⟨List.replicate SEI_MAX_QUEUE_SIZE defaultMsg, 0, 0, 0⟩

/-- `sei_publisher_publish_json` (lines 261-315), returning the C
`bool` result together with the new publisher state.  `now` stands
for `esp_timer_get_time() / 1000`.  Oversize payloads are rejected;
a full queue drops its oldest entry; the stored `repeat_count`
defaults to `SEI_DEFAULT_REPEAT_COUNT` when the argument is not
positive. -/
def sei_publisher_publish_json (pub : sei_publisher_t) (json_str : List Nat)
    (repeat_count : Int) (now : Nat) : Bool × sei_publisher_t :=
  if SEI_MAX_PAYLOAD_SIZE < json_str.length then (false, pub)
  else
    let pub1 := if SEI_MAX_QUEUE_SIZE ≤ pub.queue_count then
        { pub with queue_head := (pub.queue_head + 1) % SEI_MAX_QUEUE_SIZE,
                   queue_count := pub.queue_count - 1 }
      else pub
    let msg : sei_message_t :=
      ⟨json_str, if 0 < repeat_count then repeat_count else SEI_DEFAULT_REPEAT_COUNT, now⟩
    (true,
      { pub1 with
        message_queue := pub1.message_queue.set pub1.queue_tail msg,
        queue_tail := (pub1.queue_tail + 1) % SEI_MAX_QUEUE_SIZE,
        queue_count := pub1.queue_count + 1 })

/-- Bytes of the `snprintf` format prefix `\x7b"text":"`. -/
def textJsonPrefix : List Nat := [123, 34, 116, 101, 120, 116, 34, 58, 34]

/-- Bytes of `","timestamp":`. -/
def textJsonMid : List Nat := [34, 44, 34, 116, 105, 109, 101, 115, 116, 97, 109, 112, 34, 58]

/-- Bytes of `,"type":"text_content"\x7d`. -/
def textJsonSuffix : List Nat :=
  [44, 34, 116, 121, 112, 101, 34, 58, 34, 116, 101, 120, 116, 95, 99, 111, 110, 116, 101,
   110, 116, 34, 125]

/-- Decimal digits of `n`, as ASCII bytes (`%PRIu32`). -/
def natDecimal (n : Nat) : List Nat := (Nat.toDigits 10 n).map Char.toNat

/-- The full JSON string `snprintf` would produce for a text message. -/
def textJsonWrap (text : List Nat) (now : Nat) : List Nat :=
  textJsonPrefix ++ text ++ textJsonMid ++ natDecimal now ++ textJsonSuffix

/-- `sei_publisher_publish_text` (lines 242-259): wrap the text in a
JSON object via `snprintf` into a `SEI_MAX_PAYLOAD_SIZE`-byte buffer.
When the full JSON does not fit (`json_len >= sizeof(json_buffer)`),
the buffer holds only its first 399 bytes and the call proceeds with
that truncated string.  `text` is modelled as a NUL-free byte
string. -/
def sei_publisher_publish_text (pub : sei_publisher_t) (text : List Nat)
    (repeat_count : Int) (now : Nat) : Bool × sei_publisher_t :=
  sei_publisher_publish_json pub
    (if SEI_MAX_PAYLOAD_SIZE ≤ (textJsonWrap text now).length
      then (textJsonWrap text now).take (SEI_MAX_PAYLOAD_SIZE - 1)
      else textJsonWrap text now) repeat_count now

/-- The messages logically in the queue, oldest first. -/
def toList (pub : sei_publisher_t) : List sei_message_t :=
  (List.range pub.queue_count).map
    (fun i => pub.message_queue.getD ((pub.queue_head + i) % SEI_MAX_QUEUE_SIZE) defaultMsg)

/-- The ring-buffer invariant every reachable publisher state
satisfies. -/
def Inv (pub : sei_publisher_t) : Prop :=
  pub.message_queue.length = SEI_MAX_QUEUE_SIZE ∧
  pub.queue_head < SEI_MAX_QUEUE_SIZE ∧
  pub.queue_count ≤ SEI_MAX_QUEUE_SIZE ∧
  pub.queue_tail = (pub.queue_head + pub.queue_count) % SEI_MAX_QUEUE_SIZE

/-- Iterated `insert_sei_unit`: the `for (i < repeat_count)` splice
loop of `sei_publisher_process_frame` (lines 395-407). -/
def spliceN : Nat → List Nat → List Nat → List Nat
  | 0, cur, _ => cur
  | n + 1, cur, sei => spliceN n (insert_sei_unit cur sei) sei

/-- The drain loop of `sei_publisher_process_frame` (lines 386-417):
encode the head message once, splice it `repeat_count` times, free
the payload (slot payload becomes empty), advance the head.  `fuel`
is the initial `queue_count`; the `while` loop runs exactly that many
iterations since each one decrements the count. -/
def drain : Nat → sei_publisher_t → List Nat → List Nat × sei_publisher_t
  | 0, pub, cur => (cur, pub)
  | fuel + 1, pub, cur =>
    if pub.queue_count = 0 then (cur, pub)
    else
      let msg := pub.message_queue.getD pub.queue_head defaultMsg
      let sei := create_sei_nal_unit SEND_SEI_UUID msg.payload
      let cur2 := spliceN msg.repeat_count.toNat cur sei
      drain fuel
        { pub with
          message_queue := pub.message_queue.set pub.queue_head { msg with payload := [] },
          queue_head := (pub.queue_head + 1) % SEI_MAX_QUEUE_SIZE,
          queue_count := pub.queue_count - 1 } cur2

/-- `sei_publisher_process_frame` (lines 317-429), with the mutex
always acquired and `malloc` always succeeding: empty queue and
non-keyframes pass the frame through unchanged; keyframes drain the
whole queue into the frame. -/
def sei_publisher_process_frame (pub : sei_publisher_t) (frame : List Nat) :
    Bool × List Nat × sei_publisher_t :=
  if pub.queue_count = 0 then (true, frame, pub)
  else if is_keyframe frame then
    let r := drain pub.queue_count pub frame
    (true, r.1, r.2)
  else (true, frame, pub)

/-- The statistics of `video_sei_hook_t` (part_001, lines 18-28);
`uint32_t` counters. -/
structure video_sei_hook_t where
  frames_processed : Nat
  sei_units_inserted : Nat
  total_sei_bytes : Nat
deriving DecidableEq

/-- `video_sei_hook_init`: zeroed statistics. -/
def video_sei_hook_init : video_sei_hook_t := ⟨0, 0, 0⟩

/-- `video_sei_hook_process_frame` (part_001, lines 110-159) with the
default processor driving `sei_publisher_process_frame`:
`frames_processed` is incremented on every successful call, and
`sei_units_inserted` / `total_sei_bytes` only when the output grew,
by 1 and by the added byte count respectively (all modulo `2^32`). -/
def video_sei_hook_process_frame (hook : video_sei_hook_t) (pub : sei_publisher_t)
    (frame : List Nat) : Bool × List Nat × sei_publisher_t × video_sei_hook_t :=
  if (sei_publisher_process_frame pub frame).1 then
    (true, (sei_publisher_process_frame pub frame).2.1,
      (sei_publisher_process_frame pub frame).2.2,
      if frame.length < (sei_publisher_process_frame pub frame).2.1.length then
        ⟨(hook.frames_processed + 1) % 2 ^ 32,
         (hook.sei_units_inserted + 1) % 2 ^ 32,
         (hook.total_sei_bytes +
           ((sei_publisher_process_frame pub frame).2.1.length - frame.length) % 2 ^ 32) % 2 ^ 32⟩
      else ⟨(hook.frames_processed + 1) % 2 ^ 32, hook.sei_units_inserted, hook.total_sei_bytes⟩)
  else (false, (sei_publisher_process_frame pub frame).2.1,
    (sei_publisher_process_frame pub frame).2.2, hook)

/-- Spec-side predicate, following the words of the keyframe claim:
the frame contains a NAL unit — introduced by a complete 3-byte or
4-byte start code anywhere in the buffer — whose type byte masked
with 0x1F is 5 (IDR), 7 (SPS) or 8 (PPS). -/
def claim_contains_key_nal (frame : List Nat) : Bool :=
  (List.range frame.length).any (fun i =>
    (decide (i + 3 < frame.length) && (frame.getD i 0 == 0) && (frame.getD (i + 1) 0 == 0) &&
      (frame.getD (i + 2) 0 == 1) &&
      (frame.getD (i + 3) 0 % 32 == 5 || frame.getD (i + 3) 0 % 32 == 7 ||
        frame.getD (i + 3) 0 % 32 == 8)) ||
    (decide (i + 4 < frame.length) && (frame.getD i 0 == 0) && (frame.getD (i + 1) 0 == 0) &&
      (frame.getD (i + 2) 0 == 0) && (frame.getD (i + 3) 0 == 1) &&
      (frame.getD (i + 4) 0 % 32 == 5 || frame.getD (i + 4) 0 % 32 == 7 ||
        frame.getD (i + 4) 0 % 32 == 8)))

/-!
## Queue simulation

The ring buffer of `sei_publisher_publish_json` simulates a simple
drop-oldest list queue (`listEnqueue`) on the logical contents
`toList`.
-/

/-- The message a publish call stores (lines 302-305). -/
def storedMsg (json_str : List Nat) (repeat_count : Int) (now : Nat) : sei_message_t :=
  ⟨json_str, if 0 < repeat_count then repeat_count else SEI_DEFAULT_REPEAT_COUNT, now⟩

/-- List-level drop-oldest enqueue. -/
def listEnqueue (l : List sei_message_t) (m : sei_message_t) : List sei_message_t :=
  if SEI_MAX_QUEUE_SIZE ≤ l.length then l.tail ++ [m] else l ++ [m]

theorem toList_length (pub : sei_publisher_t) : (toList pub).length = pub.queue_count := by
  simp [toList]

theorem toList_init : toList sei_publisher_init = [] := by
  simp [toList, sei_publisher_init]

theorem Inv_init : Inv sei_publisher_init := by
  refine ⟨?_, ?_, ?_, ?_⟩ <;> simp [sei_publisher_init, SEI_MAX_QUEUE_SIZE]

theorem getD_set_ne (l : List sei_message_t) (j k : Nat) (a : sei_message_t) (h : j ≠ k) :
    (l.set j a).getD k defaultMsg = l.getD k defaultMsg := by
  simp [List.getD_eq_getElem?_getD, List.getElem?_set_ne h]

theorem getD_set_self (l : List sei_message_t) (j : Nat) (a : sei_message_t)
    (h : j < l.length) :
    (l.set j a).getD j defaultMsg = a := by
  simp [List.getD_eq_getElem?_getD, List.getElem?_set_self h]


theorem toList_mk (mq : List sei_message_t) (h t c : Nat) :
    toList ⟨mq, h, t, c⟩ =
      (List.range c).map (fun i => mq.getD ((h + i) % SEI_MAX_QUEUE_SIZE) defaultMsg) := rfl

theorem Inv_mk (mq : List sei_message_t) (h t c : Nat) :
    Inv ⟨mq, h, t, c⟩ ↔ (mq.length = SEI_MAX_QUEUE_SIZE ∧ h < SEI_MAX_QUEUE_SIZE ∧
      c ≤ SEI_MAX_QUEUE_SIZE ∧ t = (h + c) % SEI_MAX_QUEUE_SIZE) := Iff.rfl

/-- Computation rule for `sei_publisher_publish_json` on a literal
publisher state. -/
theorem publish_json_mk (mq : List sei_message_t) (h t c : Nat) (json : List Nat) (r : Int)
    (now : Nat) :
    sei_publisher_publish_json ⟨mq, h, t, c⟩ json r now =
      if SEI_MAX_PAYLOAD_SIZE < json.length then (false, ⟨mq, h, t, c⟩)
      else if SEI_MAX_QUEUE_SIZE ≤ c then
        (true, ⟨mq.set t (storedMsg json r now), (h + 1) % SEI_MAX_QUEUE_SIZE,
          (t + 1) % SEI_MAX_QUEUE_SIZE, c - 1 + 1⟩)
      else
        (true, ⟨mq.set t (storedMsg json r now), h, (t + 1) % SEI_MAX_QUEUE_SIZE, c + 1⟩) := by
  rw [sei_publisher_publish_json]
  simp only [storedMsg]
  split_ifs with h1 h2 <;> rfl

/-- One `sei_publisher_publish_json` call on a valid payload succeeds
and acts on the logical queue contents as a drop-oldest enqueue of the
stored message (destructured form). -/
theorem publish_json_simulate' (mq : List sei_message_t) (head tail count : Nat)
    (json_str : List Nat) (repeat_count : Int) (now : Nat)
    (hInv : Inv ⟨mq, head, tail, count⟩)
    (hlen : json_str.length ≤ SEI_MAX_PAYLOAD_SIZE) :
    (sei_publisher_publish_json ⟨mq, head, tail, count⟩ json_str repeat_count now).1 = true ∧
    Inv (sei_publisher_publish_json ⟨mq, head, tail, count⟩ json_str repeat_count now).2 ∧
    toList (sei_publisher_publish_json ⟨mq, head, tail, count⟩ json_str repeat_count now).2 =
      listEnqueue (toList ⟨mq, head, tail, count⟩) (storedMsg json_str repeat_count now) := by
  obtain ⟨hq, hh, hc, ht⟩ := hInv
  simp only [SEI_MAX_QUEUE_SIZE] at hq hh hc ht
  rw [publish_json_mk, if_neg (Nat.not_lt.mpr hlen)]
  simp only [SEI_MAX_QUEUE_SIZE]
  by_cases hfull : 15 ≤ count
  · rw [if_pos hfull]
    have hc15 : count = 15 := by omega
    have hth : tail = head := by omega
    subst hc15
    subst hth
    refine ⟨rfl, ?_, ?_⟩
    · rw [Inv_mk]
      simp only [SEI_MAX_QUEUE_SIZE]
      refine ⟨by simpa using hq, by omega, by omega, by omega⟩
    · rw [toList_mk, toList_mk, listEnqueue]
      simp only [SEI_MAX_QUEUE_SIZE]
      rw [if_pos (by simp)]
      rw [show (15 : Nat) - 1 + 1 = 15 from rfl]
      conv_rhs => rw [List.range_succ_eq_map, List.map_cons, List.tail_cons, List.map_map]
      rw [List.range_succ, List.map_append, List.map_cons, List.map_nil]
      have hmapeq : List.map
          (fun i => (mq.set tail (storedMsg json_str repeat_count now)).getD
              (((tail + 1) % 15 + i) % 15) defaultMsg) (List.range 14) =
          List.map ((fun i => mq.getD ((tail + i) % 15) defaultMsg) ∘ Nat.succ)
            (List.range 14) := by
        refine List.map_congr_left ?_
        intro i hi
        rw [List.mem_range] at hi
        simp only [Function.comp]
        rw [getD_set_ne _ _ _ _ (by omega),
          show ((tail + 1) % 15 + i) % 15 = (tail + Nat.succ i) % 15 by omega]
      rw [hmapeq]
      congr 1
      rw [show ((tail + 1) % 15 + 14) % 15 = tail by omega, getD_set_self _ _ _ (by omega)]
  · rw [if_neg hfull]
    refine ⟨rfl, ?_, ?_⟩
    · rw [Inv_mk]
      simp only [SEI_MAX_QUEUE_SIZE]
      refine ⟨by simpa using hq, by omega, by omega, by omega⟩
    · rw [toList_mk, toList_mk, listEnqueue]
      simp only [SEI_MAX_QUEUE_SIZE]
      rw [if_neg (by simpa using hfull)]
      rw [List.range_succ, List.map_append, List.map_cons, List.map_nil]
      have hmapeq : List.map
          (fun i => (mq.set tail (storedMsg json_str repeat_count now)).getD
              ((head + i) % 15) defaultMsg) (List.range count) =
          List.map (fun i => mq.getD ((head + i) % 15) defaultMsg) (List.range count) := by
        refine List.map_congr_left ?_
        intro i hi
        rw [List.mem_range] at hi
        rw [ht]
        exact getD_set_ne _ _ _ _ (by omega)
      rw [hmapeq]
      congr 1
      rw [ht, getD_set_self _ _ _ (by omega)]

/-- `publish_json_simulate'` stated for an arbitrary publisher. -/
theorem publish_json_simulate (pub : sei_publisher_t) (json_str : List Nat)
    (repeat_count : Int) (now : Nat) (hInv : Inv pub)
    (hlen : json_str.length ≤ SEI_MAX_PAYLOAD_SIZE) :
    (sei_publisher_publish_json pub json_str repeat_count now).1 = true ∧
    Inv (sei_publisher_publish_json pub json_str repeat_count now).2 ∧
    toList (sei_publisher_publish_json pub json_str repeat_count now).2 =
      listEnqueue (toList pub) (storedMsg json_str repeat_count now) := by
  obtain ⟨mq, head, tail, count⟩ := pub
  exact publish_json_simulate' mq head tail count json_str repeat_count now hInv hlen

/-- Folding drop-oldest enqueues over a list keeps the most recent
`SEI_MAX_QUEUE_SIZE` entries, in order. -/
theorem foldl_listEnqueue_drop (msgs : List sei_message_t) :
    ∀ l, l.length ≤ SEI_MAX_QUEUE_SIZE →
      msgs.foldl listEnqueue l =
        (l ++ msgs).drop ((l ++ msgs).length - SEI_MAX_QUEUE_SIZE) := by
  induction msgs with
  | nil =>
    intro l hl
    simp only [List.foldl_nil, List.append_nil]
    rw [show l.length - SEI_MAX_QUEUE_SIZE = 0 by omega, List.drop_zero]
  | cons m msgs ih =>
    intro l hl
    rw [List.foldl_cons]
    by_cases hf : SEI_MAX_QUEUE_SIZE ≤ l.length
    · have hne : l ≠ [] := by
        intro h
        rw [h] at hf
        simp only [List.length_nil, SEI_MAX_QUEUE_SIZE] at hf
        omega
      obtain ⟨a, l', rfl⟩ := List.exists_cons_of_ne_nil hne
      rw [show listEnqueue (a :: l') m = (a :: l').tail ++ [m] by rw [listEnqueue, if_pos hf],
        List.tail_cons]
      rw [ih (l' ++ [m]) (by simp only [List.length_append, List.length_cons,
        List.length_nil, List.length_cons] at hl ⊢; omega)]
      have e1 : (l' ++ [m]) ++ msgs = l' ++ (m :: msgs) := by simp
      rw [e1]
      have e2 : a :: l' ++ m :: msgs = a :: (l' ++ m :: msgs) := rfl
      rw [e2]
      have hlen : (a :: (l' ++ m :: msgs)).length - SEI_MAX_QUEUE_SIZE =
          ((l' ++ m :: msgs).length - SEI_MAX_QUEUE_SIZE) + 1 := by
        simp only [List.length_cons, List.length_append, List.length_cons,
          SEI_MAX_QUEUE_SIZE] at hl hf ⊢
        omega
      rw [hlen, List.drop_succ_cons]
    · rw [show listEnqueue l m = l ++ [m] by rw [listEnqueue, if_neg hf]]
      rw [ih (l ++ [m]) (by simp only [List.length_append, List.length_cons,
        List.length_nil, SEI_MAX_QUEUE_SIZE] at hf ⊢; omega)]
      have e1 : (l ++ [m]) ++ msgs = l ++ (m :: msgs) := by simp
      rw [e1]

/-- Folding publishes over valid inputs simulates folding drop-oldest
enqueues of the stored messages. -/
theorem publish_fold (inputs : List (List Nat × Int × Nat)) :
    ∀ pub, Inv pub → (∀ x ∈ inputs, x.1.length ≤ SEI_MAX_PAYLOAD_SIZE) →
      Inv (inputs.foldl (fun pb x => (sei_publisher_publish_json pb x.1 x.2.1 x.2.2).2) pub) ∧
      toList (inputs.foldl (fun pb x => (sei_publisher_publish_json pb x.1 x.2.1 x.2.2).2) pub) =
        (inputs.map (fun x => storedMsg x.1 x.2.1 x.2.2)).foldl listEnqueue (toList pub) := by
  induction inputs with
  | nil =>
    intro pub hInv _
    exact ⟨hInv, rfl⟩
  | cons x xs ih =>
    intro pub hInv hval
    rw [List.foldl_cons, List.map_cons, List.foldl_cons]
    obtain ⟨-, hInv', htl⟩ :=
      publish_json_simulate pub x.1 x.2.1 x.2.2 hInv (hval x (by simp))
    obtain ⟨hI, hT⟩ := ih _ hInv' (fun y hy => hval y (by simp [hy]))
    exact ⟨hI, by rw [hT, htl]⟩

/-- `sei_publisher_process_frame` is the identity on the frame and on
the publisher whenever the queue is empty or the frame is not a
keyframe (lines 336-344 and 366-375; the C code returns a byte-equal
`malloc`ed copy). -/
theorem process_frame_passthrough (pub : sei_publisher_t) (frame : List Nat)
    (h : pub.queue_count = 0 ∨ is_keyframe frame = false) :
    sei_publisher_process_frame pub frame = (true, frame, pub) := by
  rw [sei_publisher_process_frame]
  by_cases h0 : pub.queue_count = 0
  · rw [if_pos h0]
  · rcases h with h | h
    · exact absurd h h0
    · rw [if_neg h0, h]
      rw [if_neg (by simp)]

/-- The drain loop on a single-message queue: encode the head message
once, splice it `repeat_count` times, clear the slot, advance the
head. -/
theorem drain_one (mq : List sei_message_t) (head tail : Nat) (cur : List Nat) :
    drain 1 ⟨mq, head, tail, 1⟩ cur =
      (spliceN (mq.getD head defaultMsg).repeat_count.toNat cur
          (create_sei_nal_unit SEND_SEI_UUID (mq.getD head defaultMsg).payload),
        ⟨mq.set head { mq.getD head defaultMsg with payload := [] },
          (head + 1) % SEI_MAX_QUEUE_SIZE, tail, 0⟩) := rfl

/-- Three splices of the same unit, written out. -/
theorem spliceN_three (cur sei : List Nat) :
    spliceN 3 cur sei =
      insert_sei_unit (insert_sei_unit (insert_sei_unit cur sei) sei) sei := rfl

/-- The explicit condition under which the keyframe scan accepts
offset `j`: a 3-byte or 4-byte start code at `j` followed by a NAL
type byte masking to IDR (5), SPS (7) or PPS (8). -/
def keyNalCond (frame : List Nat) (j : Nat) : Prop :=
  (frame.getD j 0 = 0 ∧ frame.getD (j + 1) 0 = 0 ∧ frame.getD (j + 2) 0 = 1 ∧
    (frame.getD (j + 3) 0 % 32 = 5 ∨ frame.getD (j + 3) 0 % 32 = 7 ∨
      frame.getD (j + 3) 0 % 32 = 8)) ∨
  (frame.getD j 0 = 0 ∧ frame.getD (j + 1) 0 = 0 ∧ frame.getD (j + 2) 0 = 0 ∧
    frame.getD (j + 3) 0 = 1 ∧
    (frame.getD (j + 4) 0 % 32 = 5 ∨ frame.getD (j + 4) 0 % 32 = 7 ∨
      frame.getD (j + 4) 0 % 32 = 8))

theorem keyframe_scan_sound (frame : List Nat) :
    ∀ n i, frame.length - i ≤ n → keyframe_scan frame i = true →
      ∃ j, i ≤ j ∧ j < frame.length - 4 ∧ keyNalCond frame j := by
  intro n
  induction n with
  | zero =>
    intro i hn h
    rw [keyframe_scan, if_neg (by omega)] at h
    exact absurd h (by simp)
  | succ n ih =>
    intro i hn h
    by_cases hb : i < frame.length - 4
    · rw [keyframe_scan, if_pos hb] at h
      split_ifs at h with h1 h2 h3 h4 h5 h6
      · -- 3-byte start code at i with key type
        rcases h1 with h1 | h1
        · exfalso; omega
        · exact ⟨i, le_rfl, hb, Or.inl ⟨h1.1, h1.2.1, h2, h4⟩⟩
      · obtain ⟨j, hj1, hj2, hj3⟩ := ih (i + 1) (by omega) h
        exact ⟨j, by omega, hj2, hj3⟩
      · obtain ⟨j, hj1, hj2, hj3⟩ := ih (i + 1) (by omega) h
        exact ⟨j, by omega, hj2, hj3⟩
      · -- 4-byte start code at i with key type
        rcases h1 with h1 | h1
        · exact ⟨i, le_rfl, hb, Or.inr ⟨h1.1, h1.2.1, h1.2.2.1, h1.2.2.2, h6⟩⟩
        · exact absurd h1.2.2 h2
      · obtain ⟨j, hj1, hj2, hj3⟩ := ih (i + 1) (by omega) h
        exact ⟨j, by omega, hj2, hj3⟩
      · obtain ⟨j, hj1, hj2, hj3⟩ := ih (i + 1) (by omega) h
        exact ⟨j, by omega, hj2, hj3⟩
      · obtain ⟨j, hj1, hj2, hj3⟩ := ih (i + 1) (by omega) h
        exact ⟨j, by omega, hj2, hj3⟩
    · rw [keyframe_scan, if_neg hb] at h
      exact absurd h (by simp)

theorem keyframe_scan_complete (frame : List Nat) :
    ∀ n i j, frame.length - i ≤ n → i ≤ j → j < frame.length - 4 → keyNalCond frame j →
      keyframe_scan frame i = true := by
  intro n
  induction n with
  | zero =>
    intro i j hn hij hj _
    omega
  | succ n ih =>
    intro i j hn hij hj hcond
    have hb : i < frame.length - 4 := by omega
    rw [keyframe_scan, if_pos hb]
    by_cases hii : i = j
    · subst hii
      rcases hcond with ⟨ha, hb', hc, hd⟩ | ⟨ha, hb', hc, hd, he⟩
      · rw [if_pos (Or.inr ⟨ha, hb', hc⟩), if_pos hc, if_pos (by omega), if_pos hd]
      · have hc1 : ¬ frame.getD (i + 2) 0 = 1 := by omega
        rw [if_pos (Or.inl ⟨ha, hb', hc, hd⟩), if_neg hc1, if_pos (by omega), if_pos he]
    · have hlt : i + 1 ≤ j := by omega
      have htail := ih (i + 1) j (by omega) hlt hj hcond
      split_ifs <;> first | rfl | exact htail

/-- The keyframe test, characterised: true exactly when some offset
strictly below `length - 4` carries a complete start code with an
IDR/SPS/PPS type byte. -/
theorem is_keyframe_iff (frame : List Nat) :
    is_keyframe frame = true ↔
      ∃ j, j < frame.length - 4 ∧ keyNalCond frame j := by
  rw [is_keyframe, Bool.and_eq_true, decide_eq_true_eq]
  constructor
  · rintro ⟨h4, hscan⟩
    obtain ⟨j, -, hj, hc⟩ := keyframe_scan_sound frame frame.length 0 (by omega) hscan
    exact ⟨j, hj, hc⟩
  · rintro ⟨j, hj, hc⟩
    exact ⟨by omega, keyframe_scan_complete frame frame.length 0 j (by omega) (by omega) hj hc⟩

/-- In the model (mutex acquired, allocation succeeds)
`sei_publisher_process_frame` always reports success. -/
theorem process_frame_fst (pub : sei_publisher_t) (frame : List Nat) :
    (sei_publisher_process_frame pub frame).1 = true := by
  rw [sei_publisher_process_frame]
  split_ifs <;> rfl

/-- Statistics bookkeeping of the hook, per call: `frames_processed`
advances on every (successful) call; the other two counters advance
exactly when the output grew, by 1 and by the byte growth. -/
theorem hook_stats (fp su tb : Nat) (pub : sei_publisher_t) (frame : List Nat) :
    (video_sei_hook_process_frame ⟨fp, su, tb⟩ pub frame).2.2.2.frames_processed =
        (fp + 1) % 2 ^ 32 ∧
    (frame.length < (sei_publisher_process_frame pub frame).2.1.length →
      (video_sei_hook_process_frame ⟨fp, su, tb⟩ pub frame).2.2.2.sei_units_inserted =
          (su + 1) % 2 ^ 32 ∧
      (video_sei_hook_process_frame ⟨fp, su, tb⟩ pub frame).2.2.2.total_sei_bytes =
        (tb + ((sei_publisher_process_frame pub frame).2.1.length - frame.length) % 2 ^ 32) %
          2 ^ 32) ∧
    (¬ frame.length < (sei_publisher_process_frame pub frame).2.1.length →
      (video_sei_hook_process_frame ⟨fp, su, tb⟩ pub frame).2.2.2.sei_units_inserted = su ∧
      (video_sei_hook_process_frame ⟨fp, su, tb⟩ pub frame).2.2.2.total_sei_bytes = tb) := by
  rw [video_sei_hook_process_frame, if_pos (process_frame_fst pub frame)]
  by_cases hg : frame.length < (sei_publisher_process_frame pub frame).2.1.length
  · rw [if_pos hg]
    exact ⟨rfl, fun _ => ⟨rfl, rfl⟩, fun h => absurd hg h⟩
  · rw [if_neg hg]
    exact ⟨rfl, fun h => absurd h hg, fun _ => ⟨rfl, rfl⟩⟩

/-- Oversize JSON payloads are rejected outright: `false` result and
a completely unchanged publisher. -/
theorem publish_json_oversize (pub : sei_publisher_t) (json_str : List Nat)
    (repeat_count : Int) (now : Nat) (h : SEI_MAX_PAYLOAD_SIZE < json_str.length) :
    sei_publisher_publish_json pub json_str repeat_count now = (false, pub) := by
  rw [sei_publisher_publish_json, if_pos h]

theorem publish_json_fst_true (pub : sei_publisher_t) (json_str : List Nat)
    (repeat_count : Int) (now : Nat) (h : json_str.length ≤ SEI_MAX_PAYLOAD_SIZE) :
    (sei_publisher_publish_json pub json_str repeat_count now).1 = true := by
  rw [sei_publisher_publish_json, if_neg (Nat.not_lt.mpr h)]

/-- When the wrapped JSON does not fit the 400-byte buffer,
`sei_publisher_publish_text` silently proceeds with its first 399
bytes. -/
theorem publish_text_truncates (pub : sei_publisher_t) (text : List Nat)
    (repeat_count : Int) (now : Nat)
    (h : SEI_MAX_PAYLOAD_SIZE ≤ (textJsonWrap text now).length) :
    sei_publisher_publish_text pub text repeat_count now =
      sei_publisher_publish_json pub
        ((textJsonWrap text now).take (SEI_MAX_PAYLOAD_SIZE - 1)) repeat_count now := by
  rw [sei_publisher_publish_text, if_pos h]

/-- The truncated buffer is always small enough to be accepted. -/
theorem publish_text_never_rejected (pub : sei_publisher_t) (text : List Nat)
    (repeat_count : Int) (now : Nat)
    (h : SEI_MAX_PAYLOAD_SIZE ≤ (textJsonWrap text now).length) :
    (sei_publisher_publish_text pub text repeat_count now).1 = true := by
  rw [publish_text_truncates pub text repeat_count now h]
  refine publish_json_fst_true _ _ _ _ ?_
  rw [List.length_take]
  simp only [SEI_MAX_PAYLOAD_SIZE]
  omega

/-- A stored message never has a non-positive repeat count. -/
theorem storedMsg_repeat_pos (json_str : List Nat) (repeat_count : Int) (now : Nat) :
    1 ≤ (storedMsg json_str repeat_count now).repeat_count := by
  simp only [storedMsg, SEI_DEFAULT_REPEAT_COUNT]
  split_ifs with h <;> omega

/-- Non-positive repeat counts are replaced by the default 3. -/
theorem storedMsg_nonpos (json_str : List Nat) (repeat_count : Int) (now : Nat)
    (h : repeat_count ≤ 0) :
    storedMsg json_str repeat_count now = ⟨json_str, 3, now⟩ := by
  rw [storedMsg, if_neg (by omega)]
  rfl

theorem mem_listEnqueue (l : List sei_message_t) (m x : sei_message_t)
    (hx : x ∈ listEnqueue l m) : x ∈ l ∨ x = m := by
  rw [listEnqueue] at hx
  split_ifs at hx with h
  · rcases List.mem_append.mp hx with h1 | h1
    · exact Or.inl (List.mem_of_mem_tail h1)
    · exact Or.inr (by simpa using h1)
  · rcases List.mem_append.mp hx with h1 | h1
    · exact Or.inl h1
    · exact Or.inr (by simpa using h1)

/-- The scan skips past a recognised 4-byte start code whose type is
not a coded slice. -/
theorem fipl_skip4 (g : List Nat) (i : Nat) (hb : i < g.length - 4)
    (hn3 : ¬(g.getD i 0 = 0 ∧ g.getD (i + 1) 0 = 0 ∧ g.getD (i + 2) 0 = 1))
    (hb5 : i < g.length - 5)
    (h4 : g.getD i 0 = 0 ∧ g.getD (i + 1) 0 = 0 ∧ g.getD (i + 2) 0 = 0 ∧ g.getD (i + 3) 0 = 1)
    (hty : ¬(1 ≤ g.getD (i + 4) 0 % 32 ∧ g.getD (i + 4) 0 % 32 ≤ 5)) :
    find_insert_position_loop g i = find_insert_position_loop g (i + 5) := by
  conv_lhs => rw [find_insert_position_loop]
  rw [dif_pos hb, if_neg hn3, if_pos ⟨hb5, h4.1, h4.2.1, h4.2.2.1, h4.2.2.2⟩, if_neg hty]

/-!
## The claims
-/

/-- **C1** (round-trip): for every payload of at most
`SEI_MAX_PAYLOAD_SIZE` bytes, encoding with `create_sei_nal_unit` and
then scanning/decoding the bitstream (skipping start code and header,
removing the emulation-prevention bytes) recovers the 16-byte
identifier and the payload exactly. -/
theorem claim_C1_roundtrip (payload : List Nat)
    (h : payload.length ≤ SEI_MAX_PAYLOAD_SIZE) :
    decode_sei (create_sei_nal_unit SEND_SEI_UUID payload) =
      some (SEND_SEI_UUID, payload) :=
  decode_sei_create SEND_SEI_UUID payload rfl

theorem claim_C1_roundtrip_witness :
    ([0, 0, 1, 2, 3, 255] : List Nat).length ≤ SEI_MAX_PAYLOAD_SIZE ∧
    decode_sei (create_sei_nal_unit SEND_SEI_UUID [0, 0, 1, 2, 3, 255]) =
      some (SEND_SEI_UUID, [0, 0, 1, 2, 3, 255]) :=
  ⟨by decide, claim_C1_roundtrip [0, 0, 1, 2, 3, 255] (by decide)⟩

/-- **C2** (emulation prevention): `do_emulation_prevention` copies
the first 4 bytes verbatim; from the fifth byte on it acts as the
escape state machine `epEmit` (which inserts a 0x03 before the next
byte exactly when the two most recently written bytes are 00 00 and
the next byte is one of 00..03); and the output carries no 3-byte
start code 00 00 01 at any offset ≥ 2. -/
theorem claim_C2_emulation_prevention (input : List Nat) (p : Nat)
    (h5 : 5 ≤ input.length) (hp : 2 ≤ p) :
    (do_emulation_prevention input).take 4 = input.take 4 ∧
    do_emulation_prevention input =
      input.take 4 ++ epEmit (input.drop 4) (win (input.take 4).reverse) ∧
    ¬ ([0, 0, 1] <+: (do_emulation_prevention input).drop p) :=
  ⟨dep_take4 input, dep_eq_emit input h5, dep_no001 input p hp⟩

theorem claim_C2_emulation_prevention_witness :
    5 ≤ ([0, 0, 0, 1, 0, 0, 1, 0, 0, 2, 255] : List Nat).length ∧ 2 ≤ 2 ∧
    ((do_emulation_prevention [0, 0, 0, 1, 0, 0, 1, 0, 0, 2, 255]).take 4 =
        ([0, 0, 0, 1, 0, 0, 1, 0, 0, 2, 255] : List Nat).take 4 ∧
      do_emulation_prevention [0, 0, 0, 1, 0, 0, 1, 0, 0, 2, 255] =
        ([0, 0, 0, 1, 0, 0, 1, 0, 0, 2, 255] : List Nat).take 4 ++
          epEmit (([0, 0, 0, 1, 0, 0, 1, 0, 0, 2, 255] : List Nat).drop 4)
            (win (([0, 0, 0, 1, 0, 0, 1, 0, 0, 2, 255] : List Nat).take 4).reverse) ∧
      ¬ ([0, 0, 1] <+: (do_emulation_prevention [0, 0, 0, 1, 0, 0, 1, 0, 0, 2, 255]).drop 2)) :=
  ⟨by decide, by decide,
    claim_C2_emulation_prevention [0, 0, 0, 1, 0, 0, 1, 0, 0, 2, 255] 2
      (by decide) (by decide)⟩

/-- **C3** (wire format): for every payload of at most
`SEI_MAX_PAYLOAD_SIZE` bytes, the SEI unit is, before emulation
prevention and in order: the start code 00 00 00 01, the byte 0x06,
the byte 0x05, a size field of `(len + 16) / 255` bytes 0xFF followed
by one byte holding the remainder `(len + 16) % 255 < 255`, the
16-byte identifier verbatim, the payload verbatim and the byte
0x80. -/
theorem claim_C3_wire_format (payload : List Nat)
    (h : payload.length ≤ SEI_MAX_PAYLOAD_SIZE) :
    create_sei_nal_unit SEND_SEI_UUID payload =
      do_emulation_prevention
        ([0, 0, 0, 1] ++ [6] ++ [5] ++
          (List.replicate ((payload.length + 16) / 255) 255 ++
            [(payload.length + 16) % 255]) ++
          SEND_SEI_UUID ++ payload ++ [128]) ∧
    (payload.length + 16) % 255 < 255 := by
  refine ⟨?_, Nat.mod_lt _ (by omega)⟩
  rw [create_sei_nal_unit, create_raw_eq, length_to_uint8_eq]
  congr 1
  simp [SEI_PAYLOAD_TERMINATION]

theorem claim_C3_wire_format_witness :
    ([0, 0, 1] : List Nat).length ≤ SEI_MAX_PAYLOAD_SIZE ∧
    (create_sei_nal_unit SEND_SEI_UUID [0, 0, 1] =
      do_emulation_prevention
        ([0, 0, 0, 1] ++ [6] ++ [5] ++
          (List.replicate ((([0, 0, 1] : List Nat).length + 16) / 255) 255 ++
            [(([0, 0, 1] : List Nat).length + 16) % 255]) ++
          SEND_SEI_UUID ++ [0, 0, 1] ++ [128]) ∧
      (([0, 0, 1] : List Nat).length + 16) % 255 < 255) :=
  ⟨by decide, claim_C3_wire_format [0, 0, 1] (by decide)⟩

/-- **C4** (keyframe injection): on a keyframe, with the queue
holding exactly one message of `repeat_count = 3`, the frame
processor returns an output frame carrying exactly three additional
SEI NAL units bearing the fixed identifier — the message encoded once
and spliced three times, the copies landing consecutively in front of
the slice NAL unit found at `p` — and drains the queue to size 0. -/
theorem claim_C4_keyframe_injection (pub : sei_publisher_t) (m : sei_message_t)
    (frame : List Nat) (p : Nat) (hInv : Inv pub) (hq : toList pub = [m])
    (hr : m.repeat_count = 3) (hkf : is_keyframe frame = true)
    (hfp : find_insert_position frame = some p) :
    (sei_publisher_process_frame pub frame).1 = true ∧
    (sei_publisher_process_frame pub frame).2.1 =
      frame.take p ++ create_sei_nal_unit SEND_SEI_UUID m.payload ++
        create_sei_nal_unit SEND_SEI_UUID m.payload ++
        create_sei_nal_unit SEND_SEI_UUID m.payload ++ frame.drop p ∧
    (sei_publisher_process_frame pub frame).2.2.queue_count = 0 ∧
    SEND_SEI_UUID <:+: create_sei_nal_unit SEND_SEI_UUID m.payload := by
  obtain ⟨mq, head, tail, count⟩ := pub
  obtain ⟨hlen15, hhead, hcnt, htail⟩ := (Inv_mk mq head tail count).mp hInv
  have hc : count = 1 := by
    have h := toList_length ⟨mq, head, tail, count⟩
    rw [hq] at h
    simpa using h.symm
  subst hc
  have hm : mq.getD head defaultMsg = m := by
    rw [toList_mk] at hq
    simp only [show List.range 1 = [0] from rfl, List.map_cons, List.map_nil,
      Nat.add_zero] at hq
    rw [Nat.mod_eq_of_lt hhead] at hq
    injection hq
  have hE : sei_publisher_process_frame ⟨mq, head, tail, 1⟩ frame =
      (true, spliceN m.repeat_count.toNat frame (create_sei_nal_unit SEND_SEI_UUID m.payload),
        ⟨mq.set head { m with payload := [] }, (head + 1) % SEI_MAX_QUEUE_SIZE,
          tail, 0⟩) := by
    rw [sei_publisher_process_frame]
    rw [if_neg (by simp : ¬ ((⟨mq, head, tail, 1⟩ : sei_publisher_t).queue_count = 0))]
    rw [if_pos hkf]
    rw [show (⟨mq, head, tail, 1⟩ : sei_publisher_t).queue_count = 1 from rfl]
    rw [drain_one, hm]
  rw [hE]
  refine ⟨rfl, ?_, rfl, create_sei_uuid_infix m.payload⟩
  rw [hr, show ((3 : Int)).toNat = 3 from rfl, spliceN_three]
  exact insert_sei_unit_three frame SEND_SEI_UUID m.payload p hfp

theorem claim_C4_keyframe_injection_witness :
    Inv ⟨(List.replicate 15 defaultMsg).set 0 ⟨[104, 105], 3, 0⟩, 0, 1, 1⟩ ∧
    toList ⟨(List.replicate 15 defaultMsg).set 0 ⟨[104, 105], 3, 0⟩, 0, 1, 1⟩ =
      [⟨[104, 105], 3, 0⟩] ∧
    (⟨[104, 105], 3, 0⟩ : sei_message_t).repeat_count = 3 ∧
    is_keyframe [0, 0, 0, 1, 103, 0, 0, 0, 1, 101, 9, 9, 9, 9, 9, 9] = true ∧
    find_insert_position [0, 0, 0, 1, 103, 0, 0, 0, 1, 101, 9, 9, 9, 9, 9, 9] = some 5 ∧
    ((sei_publisher_process_frame
        ⟨(List.replicate 15 defaultMsg).set 0 ⟨[104, 105], 3, 0⟩, 0, 1, 1⟩
        [0, 0, 0, 1, 103, 0, 0, 0, 1, 101, 9, 9, 9, 9, 9, 9]).1 = true ∧
      (sei_publisher_process_frame
        ⟨(List.replicate 15 defaultMsg).set 0 ⟨[104, 105], 3, 0⟩, 0, 1, 1⟩
        [0, 0, 0, 1, 103, 0, 0, 0, 1, 101, 9, 9, 9, 9, 9, 9]).2.1 =
        ([0, 0, 0, 1, 103, 0, 0, 0, 1, 101, 9, 9, 9, 9, 9, 9] : List Nat).take 5 ++
          create_sei_nal_unit SEND_SEI_UUID (⟨[104, 105], 3, 0⟩ : sei_message_t).payload ++
          create_sei_nal_unit SEND_SEI_UUID (⟨[104, 105], 3, 0⟩ : sei_message_t).payload ++
          create_sei_nal_unit SEND_SEI_UUID (⟨[104, 105], 3, 0⟩ : sei_message_t).payload ++
          ([0, 0, 0, 1, 103, 0, 0, 0, 1, 101, 9, 9, 9, 9, 9, 9] : List Nat).drop 5 ∧
      (sei_publisher_process_frame
        ⟨(List.replicate 15 defaultMsg).set 0 ⟨[104, 105], 3, 0⟩, 0, 1, 1⟩
        [0, 0, 0, 1, 103, 0, 0, 0, 1, 101, 9, 9, 9, 9, 9, 9]).2.2.queue_count = 0 ∧
      SEND_SEI_UUID <:+: create_sei_nal_unit SEND_SEI_UUID (⟨[104, 105], 3, 0⟩ : sei_message_t).payload) := by
  have hInv : Inv ⟨(List.replicate 15 defaultMsg).set 0 ⟨[104, 105], 3, 0⟩, 0, 1, 1⟩ :=
    (Inv_mk _ _ _ _).mpr (by decide)
  have hq : toList ⟨(List.replicate 15 defaultMsg).set 0 ⟨[104, 105], 3, 0⟩, 0, 1, 1⟩ =
      [⟨[104, 105], 3, 0⟩] := by decide
  have hkf : is_keyframe [0, 0, 0, 1, 103, 0, 0, 0, 1, 101, 9, 9, 9, 9, 9, 9] = true :=
    (is_keyframe_iff _).mpr ⟨0, by decide, by unfold keyNalCond; decide⟩
  have hfp : find_insert_position [0, 0, 0, 1, 103, 0, 0, 0, 1, 101, 9, 9, 9, 9, 9, 9] =
      some 5 := by
    have h1 := fipl_skip4 [0, 0, 0, 1, 103, 0, 0, 0, 1, 101, 9, 9, 9, 9, 9, 9] 0
      (by decide) (by decide) (by decide) (by decide) (by decide)
    have h2 := fipl_fire4 [0, 0, 0, 1, 103, 0, 0, 0, 1, 101, 9, 9, 9, 9, 9, 9] 5
      (by decide) (by decide) (by decide) (by decide) (by decide)
      (by decide) (by decide) (by decide) (by decide)
    rw [find_insert_position, h1]
    exact h2
  exact ⟨hInv, hq, rfl, hkf, hfp,
    claim_C4_keyframe_injection _ _ _ 5 hInv hq rfl hkf hfp⟩

/-- **C5** (pass-through): whenever the queue is empty or the frame is
not a keyframe, `sei_publisher_process_frame` returns a buffer
byte-equal to the input frame, the publisher state untouched and the
queue size unchanged. -/
theorem claim_C5_passthrough (pub : sei_publisher_t) (frame : List Nat)
    (h : pub.queue_count = 0 ∨ is_keyframe frame = false) :
    sei_publisher_process_frame pub frame = (true, frame, pub) ∧
    (sei_publisher_process_frame pub frame).2.2.queue_count = pub.queue_count := by
  have hE := process_frame_passthrough pub frame h
  exact ⟨hE, by rw [hE]⟩

theorem claim_C5_passthrough_witness :
    (sei_publisher_init.queue_count = 0 ∨ is_keyframe [9, 9, 9] = false) ∧
    (sei_publisher_process_frame sei_publisher_init [9, 9, 9] =
        (true, [9, 9, 9], sei_publisher_init) ∧
      (sei_publisher_process_frame sei_publisher_init [9, 9, 9]).2.2.queue_count =
        sei_publisher_init.queue_count) :=
  ⟨Or.inl rfl, claim_C5_passthrough sei_publisher_init [9, 9, 9] (Or.inl rfl)⟩

/-- **C6** (drop-oldest law): an enqueue into a queue already holding
`SEI_MAX_QUEUE_SIZE` messages succeeds, evicts exactly the single
oldest message and appends the new one; consequently enqueueing
`SEI_MAX_QUEUE_SIZE + 1` valid messages into the empty queue leaves
exactly the most recent `SEI_MAX_QUEUE_SIZE` of them, in FIFO order,
with count `SEI_MAX_QUEUE_SIZE`. -/
theorem claim_C6_drop_oldest :
    (∀ (pub : sei_publisher_t) (json_str : List Nat) (r : Int) (now : Nat),
      Inv pub → pub.queue_count = SEI_MAX_QUEUE_SIZE →
      json_str.length ≤ SEI_MAX_PAYLOAD_SIZE →
      (sei_publisher_publish_json pub json_str r now).1 = true ∧
      toList (sei_publisher_publish_json pub json_str r now).2 =
        (toList pub).tail ++ [storedMsg json_str r now] ∧
      (sei_publisher_publish_json pub json_str r now).2.queue_count =
        SEI_MAX_QUEUE_SIZE) ∧
    (∀ inputs : List (List Nat × Int × Nat),
      inputs.length = SEI_MAX_QUEUE_SIZE + 1 →
      (∀ x ∈ inputs, x.1.length ≤ SEI_MAX_PAYLOAD_SIZE) →
      toList (inputs.foldl
          (fun pb x => (sei_publisher_publish_json pb x.1 x.2.1 x.2.2).2)
          sei_publisher_init) =
        (inputs.map (fun x => storedMsg x.1 x.2.1 x.2.2)).drop 1 ∧
      (inputs.foldl (fun pb x => (sei_publisher_publish_json pb x.1 x.2.1 x.2.2).2)
          sei_publisher_init).queue_count = SEI_MAX_QUEUE_SIZE) := by
  constructor
  · intro pub json_str r now hInv hfull hlen
    obtain ⟨h1, hInv2, htl⟩ := publish_json_simulate pub json_str r now hInv hlen
    have hlen15 : (toList pub).length = SEI_MAX_QUEUE_SIZE := by
      rw [toList_length, hfull]
    have henq : listEnqueue (toList pub) (storedMsg json_str r now) =
        (toList pub).tail ++ [storedMsg json_str r now] := by
      rw [listEnqueue, if_pos (by omega)]
    refine ⟨h1, by rw [htl, henq], ?_⟩
    rw [← toList_length, htl, henq, List.length_append, List.length_tail, hlen15]
    simp only [List.length_singleton, SEI_MAX_QUEUE_SIZE]
  · intro inputs hlen16 hval
    obtain ⟨hI, hT⟩ := publish_fold inputs sei_publisher_init Inv_init hval
    rw [toList_init,
      foldl_listEnqueue_drop _ [] (by simp [SEI_MAX_QUEUE_SIZE])] at hT
    simp only [List.nil_append, List.length_map, hlen16] at hT
    constructor
    · rw [hT, show SEI_MAX_QUEUE_SIZE + 1 - SEI_MAX_QUEUE_SIZE = 1 from rfl]
    · rw [← toList_length, hT, List.length_drop, List.length_map, hlen16]
      decide

theorem claim_C6_drop_oldest_witness :
    (Inv ⟨List.replicate 15 defaultMsg, 0, 0, 15⟩ ∧
      (⟨List.replicate 15 defaultMsg, 0, 0, 15⟩ : sei_publisher_t).queue_count =
        SEI_MAX_QUEUE_SIZE ∧
      ([104] : List Nat).length ≤ SEI_MAX_PAYLOAD_SIZE ∧
      ((sei_publisher_publish_json ⟨List.replicate 15 defaultMsg, 0, 0, 15⟩ [104] 2 7).1 =
          true ∧
        toList (sei_publisher_publish_json
            ⟨List.replicate 15 defaultMsg, 0, 0, 15⟩ [104] 2 7).2 =
          (toList ⟨List.replicate 15 defaultMsg, 0, 0, 15⟩).tail ++ [storedMsg [104] 2 7] ∧
        (sei_publisher_publish_json
            ⟨List.replicate 15 defaultMsg, 0, 0, 15⟩ [104] 2 7).2.queue_count =
          SEI_MAX_QUEUE_SIZE)) ∧
    (((List.range 16).map (fun i => (([i] : List Nat), (3 : Int), i))).length =
        SEI_MAX_QUEUE_SIZE + 1 ∧
      (∀ x ∈ (List.range 16).map (fun i => (([i] : List Nat), (3 : Int), i)),
        x.1.length ≤ SEI_MAX_PAYLOAD_SIZE) ∧
      (toList (((List.range 16).map (fun i => (([i] : List Nat), (3 : Int), i))).foldl
          (fun pb x => (sei_publisher_publish_json pb x.1 x.2.1 x.2.2).2)
          sei_publisher_init) =
        (((List.range 16).map (fun i => (([i] : List Nat), (3 : Int), i))).map
          (fun x => storedMsg x.1 x.2.1 x.2.2)).drop 1 ∧
      (((List.range 16).map (fun i => (([i] : List Nat), (3 : Int), i))).foldl
          (fun pb x => (sei_publisher_publish_json pb x.1 x.2.1 x.2.2).2)
          sei_publisher_init).queue_count = SEI_MAX_QUEUE_SIZE)) := by
  have hInv : Inv ⟨List.replicate 15 defaultMsg, 0, 0, 15⟩ :=
    (Inv_mk _ _ _ _).mpr (by decide)
  refine ⟨⟨hInv, rfl, by decide, ?_⟩, rfl, by decide, ?_⟩
  · exact claim_C6_drop_oldest.1 ⟨List.replicate 15 defaultMsg, 0, 0, 15⟩ [104] 2 7
      hInv rfl (by decide)
  · exact claim_C6_drop_oldest.2
      ((List.range 16).map (fun i => (([i] : List Nat), (3 : Int), i))) rfl (by decide)

/-- **C7** (keyframe detection), counterexample to the quantifier
"anywhere in the buffer": the 4-byte frame 00 00 01 05 contains a
complete 3-byte start code introducing an IDR NAL unit, yet the
keyframe test is false, because the C scan only inspects offsets
`i < frame_size - 4`. -/
theorem claim_C7_counterexample :
    claim_contains_key_nal [0, 0, 1, 5] = true ∧
    is_keyframe [0, 0, 1, 5] = false := by
  refine ⟨by decide, ?_⟩
  cases hb : is_keyframe [0, 0, 1, 5] with
  | false => rfl
  | true =>
    obtain ⟨j, hj, -⟩ := (is_keyframe_iff [0, 0, 1, 5]).mp hb
    simp at hj

/-- **C7** (keyframe detection), amended: the keyframe test used by
`sei_publisher_process_frame` is true if and only if a complete
3-byte or 4-byte start code with an IDR (5), SPS (7) or PPS (8) type
byte occurs at some offset `j < frame.length - 4` — the C loop bound;
start codes within the last four bytes of the buffer are not
detected. -/
theorem claim_C7_keyframe_detection (frame : List Nat) :
    is_keyframe frame = true ↔ ∃ j, j < frame.length - 4 ∧ keyNalCond frame j :=
  is_keyframe_iff frame

/-- **C8** (statistics), counterexample: a call whose result buffer
is not larger than the input (empty queue, so the frame passes
through byte-equal) still increments `frames_processed` — the counter
advances on every successful call, not only on growing ones. -/
theorem claim_C8_counterexample :
    (video_sei_hook_process_frame ⟨0, 0, 0⟩ sei_publisher_init [9, 9, 9, 9]).1 = true ∧
    (video_sei_hook_process_frame ⟨0, 0, 0⟩ sei_publisher_init [9, 9, 9, 9]).2.1 =
      [9, 9, 9, 9] ∧
    (video_sei_hook_process_frame
      ⟨0, 0, 0⟩ sei_publisher_init [9, 9, 9, 9]).2.2.2.frames_processed = 1 :=
  ⟨rfl, rfl, rfl⟩

/-- **C8** (statistics), amended: per successful call,
`frames_processed` advances by one unconditionally (mod `2^32`);
`sei_units_inserted` advances by exactly one — not by one per
individual splice — and `total_sei_bytes` by the total byte growth,
exactly when the result buffer is larger than the input; neither
moves otherwise. -/
theorem claim_C8_statistics (fp su tb : Nat) (pub : sei_publisher_t) (frame : List Nat) :
    (video_sei_hook_process_frame ⟨fp, su, tb⟩ pub frame).2.2.2.frames_processed =
        (fp + 1) % 2 ^ 32 ∧
    (frame.length < (sei_publisher_process_frame pub frame).2.1.length →
      (video_sei_hook_process_frame ⟨fp, su, tb⟩ pub frame).2.2.2.sei_units_inserted =
          (su + 1) % 2 ^ 32 ∧
      (video_sei_hook_process_frame ⟨fp, su, tb⟩ pub frame).2.2.2.total_sei_bytes =
        (tb + ((sei_publisher_process_frame pub frame).2.1.length - frame.length) % 2 ^ 32) %
          2 ^ 32) ∧
    (¬ frame.length < (sei_publisher_process_frame pub frame).2.1.length →
      (video_sei_hook_process_frame ⟨fp, su, tb⟩ pub frame).2.2.2.sei_units_inserted = su ∧
      (video_sei_hook_process_frame ⟨fp, su, tb⟩ pub frame).2.2.2.total_sei_bytes = tb) :=
  hook_stats fp su tb pub frame

set_option maxRecDepth 10000 in
/-- **C9** (oversize rejection), counterexample to "this holds for
every enqueue variant including the text wrapper": a 401-byte text
wraps to a 448-byte JSON string, well above `SEI_MAX_PAYLOAD_SIZE`,
yet the text variant reports success and enqueues a (truncated)
message instead of rejecting it. -/
theorem claim_C9_counterexample :
    SEI_MAX_PAYLOAD_SIZE < (textJsonWrap (List.replicate 401 97) 0).length ∧
    (sei_publisher_publish_text sei_publisher_init (List.replicate 401 97) 3 0).1 = true ∧
    (sei_publisher_publish_text
      sei_publisher_init (List.replicate 401 97) 3 0).2.queue_count = 1 :=
  ⟨by decide, by decide, by decide⟩

/-- **C9** (oversize rejection), amended: the JSON variant does
reject oversize payloads outright — `false` and a byte-identical
publisher, no partial insertion, no eviction — but the text variant
never rejects: when the wrapped JSON reaches the buffer size it is
silently truncated to `SEI_MAX_PAYLOAD_SIZE - 1` bytes (the
`snprintf` limit) and enqueued successfully. -/
theorem claim_C9_oversize (pub : sei_publisher_t) (json_str text : List Nat)
    (r : Int) (now : Nat) (hj : SEI_MAX_PAYLOAD_SIZE < json_str.length)
    (ht : SEI_MAX_PAYLOAD_SIZE ≤ (textJsonWrap text now).length) :
    sei_publisher_publish_json pub json_str r now = (false, pub) ∧
    sei_publisher_publish_text pub text r now =
      sei_publisher_publish_json pub
        ((textJsonWrap text now).take (SEI_MAX_PAYLOAD_SIZE - 1)) r now ∧
    (sei_publisher_publish_text pub text r now).1 = true :=
  ⟨publish_json_oversize pub json_str r now hj,
   publish_text_truncates pub text r now ht,
   publish_text_never_rejected pub text r now ht⟩

set_option maxRecDepth 10000 in
theorem claim_C9_oversize_witness :
    SEI_MAX_PAYLOAD_SIZE < (List.replicate 401 97).length ∧
    SEI_MAX_PAYLOAD_SIZE ≤ (textJsonWrap (List.replicate 401 97) 0).length ∧
    (sei_publisher_publish_json sei_publisher_init (List.replicate 401 97) 3 0 =
        (false, sei_publisher_init) ∧
      sei_publisher_publish_text sei_publisher_init (List.replicate 401 97) 3 0 =
        sei_publisher_publish_json sei_publisher_init
          ((textJsonWrap (List.replicate 401 97) 0).take (SEI_MAX_PAYLOAD_SIZE - 1)) 3 0 ∧
      (sei_publisher_publish_text sei_publisher_init (List.replicate 401 97) 3 0).1 =
        true) :=
  ⟨by decide, by decide,
    claim_C9_oversize sei_publisher_init (List.replicate 401 97) (List.replicate 401 97)
      3 0 (by decide) (by decide)⟩

/-- **C10** (default repeat count): a publish call with a zero or
negative `repeat_count` still succeeds and stores the message with
`repeat_count` replaced by the default 3 (`SEI_DEFAULT_REPEAT_COUNT`);
hence every message resident in the queue has `repeat_count ≥ 1`. -/
theorem claim_C10_repeat_default (pub : sei_publisher_t) (json_str : List Nat)
    (r : Int) (now : Nat) (hInv : Inv pub) (hr : r ≤ 0)
    (hlen : json_str.length ≤ SEI_MAX_PAYLOAD_SIZE)
    (hall : ∀ m ∈ toList pub, 1 ≤ m.repeat_count) :
    (sei_publisher_publish_json pub json_str r now).1 = true ∧
    toList (sei_publisher_publish_json pub json_str r now).2 =
      listEnqueue (toList pub) ⟨json_str, SEI_DEFAULT_REPEAT_COUNT, now⟩ ∧
    ∀ m ∈ toList (sei_publisher_publish_json pub json_str r now).2,
      1 ≤ m.repeat_count := by
  obtain ⟨h1, -, htl⟩ := publish_json_simulate pub json_str r now hInv hlen
  refine ⟨h1, ?_, ?_⟩
  · rw [htl, storedMsg_nonpos json_str r now hr]
    rfl
  · intro m hm
    rw [htl] at hm
    rcases mem_listEnqueue _ _ _ hm with h | h
    · exact hall m h
    · rw [h]
      exact storedMsg_repeat_pos json_str r now

theorem claim_C10_repeat_default_witness :
    Inv sei_publisher_init ∧ (-1 : Int) ≤ 0 ∧
    ([104, 105] : List Nat).length ≤ SEI_MAX_PAYLOAD_SIZE ∧
    (∀ m ∈ toList sei_publisher_init, 1 ≤ m.repeat_count) ∧
    ((sei_publisher_publish_json sei_publisher_init [104, 105] (-1) 5).1 = true ∧
      toList (sei_publisher_publish_json sei_publisher_init [104, 105] (-1) 5).2 =
        listEnqueue (toList sei_publisher_init)
          ⟨[104, 105], SEI_DEFAULT_REPEAT_COUNT, 5⟩ ∧
      ∀ m ∈ toList (sei_publisher_publish_json sei_publisher_init [104, 105] (-1) 5).2,
        1 ≤ m.repeat_count) := by
  refine ⟨Inv_init, by decide, by decide, by decide, ?_⟩
  exact claim_C10_repeat_default sei_publisher_init [104, 105] (-1) 5 Inv_init
    (by decide) (by decide) (by decide)

end SeiPublisher
